import Mathlib

/-!
# Transformation estimation for ICP registration

A shallow embedding of `src/Core/Registration/TransformationEstimation.cpp`
(namespace `three`).

Conventions of the embedding.

* `double` is idealised as an element of a linearly ordered field `K`; the
  definitions are computable and can be run at `K = ℚ`, the theorems about
  square roots and angles are stated at `K = ℝ`.  Rounding is not modelled
  there; the section on binary64 arithmetic models it for the one property it
  decides, the order of the point-to-point summation.
* The scalar library functions `std::sqrt`, `cos`, `sin` are parameters.
* `std::vector::operator[]` is unchecked in C++.  In the embedding an
  out-of-range read makes the whole call return `none`.
* The Eigen routines the file calls (`umeyama`, `JacobiSVD`, `llt`,
  `AngleAxisd`) are not part of the source file.  They are modelled from the
  description the specification gives of them: `umeyama` follows the seven
  steps of the absolute-orientation closed form and takes the singular value
  decomposition as a parameter; `llt` is a Cholesky factorisation followed by
  two triangular substitutions and records whether every pivot was positive;
  `AngleAxisd` is turned into a matrix by the Rodrigues formula.
* On a matrix that is not positive definite the factorisation fails and the
  library's solve returns what its unfinished factor yields (possibly NaN).
  That outcome is a parameter `unspecified` of the solve; the value of the
  solved twist is stated under positive definiteness only, and the statements
  about degenerate systems hold for every such outcome.
-/

open Matrix

set_option linter.unusedSectionVars false
set_option linter.unnecessarySeqFocus false

namespace three

variable {K : Type} [LinearOrderedField K]

/-! ## Data model -/

/-- Eigen::Vector3d. -/
abbrev Vector3d (K : Type) := Fin 3 → K

/-- Eigen::Matrix3d. -/
abbrev Matrix3d (K : Type) := Matrix (Fin 3) (Fin 3) K

/-- Eigen::Matrix4d. -/
abbrev Matrix4d (K : Type) := Matrix (Fin 4) (Fin 4) K

/-- Eigen::Matrix<double, 6, 1>. -/
abbrev Vector6d (K : Type) := Fin 6 → K

/-- Eigen::Matrix<double, 6, 6>. -/
abbrev Matrix6d (K : Type) := Matrix (Fin 6) (Fin 6) K

/-- The part of `PointCloud` the estimators read: the point positions and the
(possibly absent) normals. -/
structure PointCloud (K : Type) where
  points_ : List (Vector3d K)
  normals_ : List (Vector3d K)

/-- Modelled from the spec: `PointCloud::HasNormals` lives in `PointCloud.h`,
which is not among the sources.  A cloud has normals when it has points and a
normal sequence of identical length. -/
def PointCloud.HasNormals (pc : PointCloud K) : Bool :=
  decide (0 < pc.points_.length) && decide (pc.normals_.length = pc.points_.length)

/-- A correspondence `c` is the index pair `(c[0], c[1])`: source index, target
index. -/
abbrev CorrespondenceSet := List (ℕ × ℕ)

/-- Eigen `squaredNorm()` of a 3-vector. -/
def squaredNorm (v : Vector3d K) : K := v ⬝ᵥ v

/-- A 4x4 matrix initialised to the identity whose top-left 3x3 block is then
set to `R` and whose top-right 3x1 block is then set to `t`. -/
def fromBlocks34 (R : Matrix3d K) (t : Vector3d K) : Matrix4d K :=
  !![R 0 0, R 0 1, R 0 2, t 0;
     R 1 0, R 1 1, R 1 2, t 1;
     R 2 0, R 2 1, R 2 2, t 2;
     0, 0, 0, 1]

/-! ## Eigen::umeyama -/

/-- The three outputs of a singular value decomposition of a 3x3 matrix. -/
structure JacobiSVD (K : Type) where
  matrixU : Matrix3d K
  singularValues : Vector3d K
  matrixV : Matrix3d K

/-- Centroid of a list of points (columns of a 3xN matrix). -/
def centroid (pts : List (Vector3d K)) : Vector3d K :=
  (1 / (pts.length : K)) • pts.sum

/-- Subtract the centroid from every column. -/
def demean (pts : List (Vector3d K)) : List (Vector3d K) :=
  pts.map (fun p => p - centroid pts)

/-- Variance of the source columns: mean squared norm of the centred
columns. -/
def variance (pts : List (Vector3d K)) : K :=
  (1 / (pts.length : K)) * ((demean pts).map squaredNorm).sum

/-- Cross-covariance of centred target against centred source:
`(1/n) * dst_demean * src_demeanᵀ`. -/
def crossCovariance (src dst : List (Vector3d K)) : Matrix3d K :=
  (1 / (src.length : K)) •
    (List.zipWith (fun d s => Matrix.vecMulVec d s) (demean dst) (demean src)).sum

/-- The sign vector `S`: all ones, last entry flipped to `-1` when
`det(U) * det(V)` is negative. -/
def reflectionSigns (dec : JacobiSVD K) : Vector3d K :=
  if dec.matrixU.det * dec.matrixV.det < 0 then ![1, 1, -1] else ![1, 1, 1]

/-- Modelled from the spec: `Eigen::umeyama` is library code that is not among
the sources; this follows steps 1 to 7 of section 4.2 of the specification.
The singular value decomposition is a parameter `svd`. -/
def umeyama (svd : Matrix3d K → JacobiSVD K) (src dst : List (Vector3d K))
    (with_scaling : Bool) : Matrix4d K :=
  let src_mean := centroid src
  let dst_mean := centroid dst
  let sigma := crossCovariance src dst
  let dec := svd sigma
  let S := reflectionSigns dec
  let R : Matrix3d K := dec.matrixU * Matrix.diagonal S * dec.matrixVᵀ
  let c : K := if with_scaling then (dec.singularValues ⬝ᵥ S) / variance src else 1
  let t : Vector3d K := dst_mean - c • (R *ᵥ src_mean)
  fromBlocks34 (c • R) t

/-! ## Eigen LLT (Cholesky) solver -/

/-- Lower Cholesky factor, computed column by column: the pivot is the square
root of the leading entry, the first column is divided by the pivot, and the
factorisation continues on the trailing block from which the outer product of
that column has been subtracted.  Only the lower triangle of `A` is read. -/
def cholesky (sqrt : K → K) : (n : ℕ) → Matrix (Fin n) (Fin n) K → Matrix (Fin n) (Fin n) K
  | 0, _ => fun i _ => i.elim0
  | n + 1, A =>
    let l := sqrt (A 0 0)
    let c : Fin n → K := fun i => A i.succ 0 / l
    let L := cholesky sqrt n (fun i j => A i.succ j.succ - c i * c j)
    fun i j =>
      Fin.cases (Fin.cases l (fun _ => 0) j)
        (fun i1 => Fin.cases (c i1) (fun j1 => L i1 j1) j) i

/-- Forward substitution: solve `L y = b` for lower triangular `L`. -/
def forwardSubst : (n : ℕ) → Matrix (Fin n) (Fin n) K → (Fin n → K) → (Fin n → K)
  | 0, _, _ => fun i => i.elim0
  | n + 1, L, b =>
    let y0 := b 0 / L 0 0
    let ys := forwardSubst n (fun i j => L i.succ j.succ) (fun i => b i.succ - L i.succ 0 * y0)
    Fin.cases y0 ys

/-- Backward substitution: solve `Lᵀ x = y` for lower triangular `L`. -/
def backwardSubst : (n : ℕ) → Matrix (Fin n) (Fin n) K → (Fin n → K) → (Fin n → K)
  | 0, _, _ => fun i => i.elim0
  | n + 1, L, y =>
    let xs := backwardSubst n (fun i j => L i.succ j.succ) (fun i => y i.succ)
    let x0 := (y 0 - ∑ j : Fin n, L j.succ 0 * xs j) / L 0 0
    Fin.cases x0 xs

/-- Eigen::ComputationInfo, restricted to the two values `LLT::info()` reports. -/
inductive ComputationInfo where
  | Success
  | NumericalIssue
  deriving DecidableEq

/-- Whether the factorisation meets only positive pivots: the leading entry
is positive and so are the pivots of the trailing block. -/
def pivotsPositive (sqrt : K → K) : (n : ℕ) → Matrix (Fin n) (Fin n) K → Bool
  | 0, _ => true
  | n + 1, A =>
    decide (0 < A 0 0) &&
      pivotsPositive sqrt n
        (fun i j => A i.succ j.succ - A i.succ 0 / sqrt (A 0 0) * (A j.succ 0 / sqrt (A 0 0)))

/-- The object returned by `A.llt()`: the lower factor and the status of the
factorisation. -/
structure LLT (n : ℕ) (K : Type) where
  matrixL : Matrix (Fin n) (Fin n) K
  info : ComputationInfo

/-- Modelled from the spec: `Eigen::LLT` is library code that is not among the
sources.  `A.llt()` computes the Cholesky factorisation `A = L Lᵀ`; it reports
`NumericalIssue` when a pivot is not positive, that is when the matrix is not
positive definite.  In that case the entries of `matrixL` have no meaning: the
library leaves an unfinished factor. -/
def llt (sqrt : K → K) {n : ℕ} (A : Matrix (Fin n) (Fin n) K) : LLT n K :=
  ⟨cholesky sqrt n A,
    if pivotsPositive sqrt n A then ComputationInfo.Success
    else ComputationInfo.NumericalIssue⟩

/-- Modelled from the spec: `LLT::solve(b)` solves `L Lᵀ x = b` by a forward
and a backward triangular substitution.  After a failed factorisation the
specification calls the outcome of the solve undefined or NaN-laden: the
library then returns what its unfinished factor yields, which neither the
source nor the specification determines.  That outcome is the parameter
`unspecified`, applied to the stored factor and the right-hand side. -/
def LLT.solve {n : ℕ} (s : LLT n K)
    (unspecified : Matrix (Fin n) (Fin n) K → (Fin n → K) → Fin n → K) (b : Fin n → K) :
    Fin n → K :=
  match s.info with
  | ComputationInfo.Success => backwardSubst n s.matrixL (forwardSubst n s.matrixL b)
  | ComputationInfo.NumericalIssue => unspecified s.matrixL b

/-! ## Eigen::AngleAxisd -/

/-- A rotation by `angle` about the unit vector `axis`. -/
structure AngleAxisd (K : Type) where
  angle : K
  axis : Vector3d K

/-- Eigen::Vector3d::UnitX(). -/
def UnitX : Vector3d K := ![1, 0, 0]

/-- Eigen::Vector3d::UnitY(). -/
def UnitY : Vector3d K := ![0, 1, 0]

/-- Eigen::Vector3d::UnitZ(). -/
def UnitZ : Vector3d K := ![0, 0, 1]

/-- Modelled from the spec: `Eigen::AngleAxisd` is library code that is not
among the sources.  The rotation matrix of an angle-axis pair is given by the
Rodrigues formula `c I + s [a]ₓ + (1 - c) a aᵀ`. -/
def AngleAxisd.toRotationMatrix (cos sin : K → K) (r : AngleAxisd K) : Matrix3d K :=
  let c := cos r.angle
  let s := sin r.angle
  let a := r.axis
  !![(1 - c) * a 0 * a 0 + c, (1 - c) * a 0 * a 1 - s * a 2, (1 - c) * a 0 * a 2 + s * a 1;
     (1 - c) * a 0 * a 1 + s * a 2, (1 - c) * a 1 * a 1 + c, (1 - c) * a 1 * a 2 - s * a 0;
     (1 - c) * a 0 * a 2 - s * a 1, (1 - c) * a 1 * a 2 + s * a 0, (1 - c) * a 2 * a 2 + c]

/-! ## TransformationEstimationPointToPoint -/

/-- The point-to-point estimator and its configuration flag. -/
structure TransformationEstimationPointToPoint where
  with_scaling_ : Bool

/-- Body of the loop of source lines 40 to 42:
`err += (source.points_[c[0]] - target.points_[c[1]]).squaredNorm()`. -/
def pointToPointStep (source target : PointCloud K) (err : K) (c : ℕ × ℕ) : Option K := do
  let s ← source.points_[c.1]?
  let t ← target.points_[c.2]?
  pure (err + squaredNorm (s - t))

/-- Source lines 34 to 44. -/
def TransformationEstimationPointToPoint.ComputeRMSE
    (_self : TransformationEstimationPointToPoint) (sqrt : K → K)
    (source target : PointCloud K) (corres : CorrespondenceSet) : Option K :=
  if corres.isEmpty then some 0
  else do
    let err ← corres.foldlM (pointToPointStep source target) 0
    pure (sqrt (err / (corres.length : K)))

/-- Body of the loop of source lines 53 to 56: column `i` of `source_mat` and
column `i` of `target_mat`. -/
def columnPair (source target : PointCloud K) (c : ℕ × ℕ) :
    Option (Vector3d K × Vector3d K) := do
  let s ← source.points_[c.1]?
  let t ← target.points_[c.2]?
  pure (s, t)

/-- Source lines 46 to 58.  The two 3xN matrices are kept as their lists of
columns. -/
def TransformationEstimationPointToPoint.ComputeTransformation
    (self : TransformationEstimationPointToPoint) (svd : Matrix3d K → JacobiSVD K)
    (source target : PointCloud K) (corres : CorrespondenceSet) : Option (Matrix4d K) :=
  if corres.isEmpty then some 1
  else do
    let cols ← corres.mapM (columnPair source target)
    let source_mat := cols.map Prod.fst
    let target_mat := cols.map Prod.snd
    pure (umeyama svd source_mat target_mat self.with_scaling_)

/-! ## TransformationEstimationPointToPlane -/

/-- The point-to-plane estimator (it has no configuration). -/
structure TransformationEstimationPointToPlane where

/-- The residual of source lines 67, 68 and 90:
`(source.points_[c[0]] - target.points_[c[1]]).dot(target.normals_[c[1]])`. -/
def residual (vs vt nt : Vector3d K) : K := (vs - vt) ⬝ᵥ nt

/-- Body of the loop of source lines 66 to 70.  Line 69 is the assignment
`err = r * r`: the incoming value of `err` is not used. -/
def pointToPlaneStep (source target : PointCloud K) (_err : K) (c : ℕ × ℕ) : Option K := do
  let vs ← source.points_[c.1]?
  let vt ← target.points_[c.2]?
  let nt ← target.normals_[c.2]?
  let r := residual vs vt nt
  pure (r * r)

/-- Source lines 60 to 72. -/
def TransformationEstimationPointToPlane.ComputeRMSE
    (_self : TransformationEstimationPointToPlane) (sqrt : K → K)
    (source target : PointCloud K) (corres : CorrespondenceSet) : Option K :=
  if corres.isEmpty || target.HasNormals == false then some 0
  else do
    let err ← corres.foldlM (pointToPlaneStep source target) 0
    pure (sqrt (err / (corres.length : K)))

/-- The 6-vector `A_r` of source lines 91 and 92: the cross product of the
source point with the target normal, stacked on the normal. -/
def stackedRow (vs nt : Vector3d K) : Vector6d K :=
  ![(vs ×₃ nt) 0, (vs ×₃ nt) 1, (vs ×₃ nt) 2, nt 0, nt 1, nt 2]

/-- One iteration of the accumulation loop, source lines 87 to 94. -/
def accumulateStep (source target : PointCloud K) (acc : Matrix6d K × Vector6d K)
    (c : ℕ × ℕ) : Option (Matrix6d K × Vector6d K) := do
  let vs ← source.points_[c.1]?
  let vt ← target.points_[c.2]?
  let nt ← target.normals_[c.2]?
  let r := residual vs vt nt
  let A_r := stackedRow vs nt
  pure (acc.1 + Matrix.vecMulVec A_r A_r, acc.2 + r • A_r)

/-- The accumulation loop, source lines 84 to 95: `ATA` and `ATb`. -/
def accumulate (source target : PointCloud K) (corres : CorrespondenceSet) :
    Option (Matrix6d K × Vector6d K) :=
  corres.foldlM (accumulateStep source target) (0, 0)

/-- The twist vector `x = -llt_solver.solve(ATb)` of source lines 96 and 97. -/
def solveTwist (sqrt : K → K) (unspecified : Matrix6d K → Vector6d K → Vector6d K)
    (ATA : Matrix6d K) (ATb : Vector6d K) : Vector6d K :=
  -((llt sqrt ATA).solve unspecified ATb)

/-- Source lines 98 to 105: the result matrix built from the twist vector. -/
def twistToMatrix (cos sin : K → K) (x : Vector6d K) : Matrix4d K :=
  fromBlocks34
    ((AngleAxisd.mk (x 2) UnitZ).toRotationMatrix cos sin *
      (AngleAxisd.mk (x 1) UnitY).toRotationMatrix cos sin *
      (AngleAxisd.mk (x 0) UnitX).toRotationMatrix cos sin)
    ![x 3, x 4, x 5]

/-- Source lines 74 to 106. -/
def TransformationEstimationPointToPlane.ComputeTransformation
    (_self : TransformationEstimationPointToPlane) (sqrt cos sin : K → K)
    (unspecified : Matrix6d K → Vector6d K → Vector6d K)
    (source target : PointCloud K) (corres : CorrespondenceSet) : Option (Matrix4d K) :=
  if corres.isEmpty || target.HasNormals == false then some 1
  else do
    let (ATA, ATb) ← accumulate source target corres
    let x := solveTwist sqrt unspecified ATA ATb
    pure (twistToMatrix cos sin x)

/-! ## Reading a cloud by index (used to state the properties) -/

/-- The point stored at index `i` (the zero vector past the end). -/
def PointCloud.pointAt (pc : PointCloud K) (i : ℕ) : Vector3d K := pc.points_.getD i 0

/-- The normal stored at index `i` (the zero vector past the end). -/
def PointCloud.normalAt (pc : PointCloud K) (i : ℕ) : Vector3d K := pc.normals_.getD i 0

/-- All index pairs of a correspondence set address existing points. -/
def InRange (source target : PointCloud K) (corres : CorrespondenceSet) : Prop :=
  ∀ c ∈ corres, c.1 < source.points_.length ∧ c.2 < target.points_.length

/-! ## The normal equations of the point-to-plane problem (used to state the properties) -/

/-- The 6-vector `A_i` of a correspondence with in-range indices. -/
def rowOf (source target : PointCloud K) (c : ℕ × ℕ) : Vector6d K :=
  stackedRow (source.pointAt c.1) (target.normalAt c.2)

/-- The residual `r_i` of a correspondence with in-range indices. -/
def residualOf (source target : PointCloud K) (c : ℕ × ℕ) : K :=
  residual (source.pointAt c.1) (target.pointAt c.2) (target.normalAt c.2)

/-- The sum of the outer products `A_i A_iᵀ` over all correspondences. -/
def normalMatrix (source target : PointCloud K) (corres : CorrespondenceSet) : Matrix6d K :=
  (corres.map (fun c => Matrix.vecMulVec (rowOf source target c) (rowOf source target c))).sum

/-- The sum of `A_i r_i` over all correspondences. -/
def normalVector (source target : PointCloud K) (corres : CorrespondenceSet) : Vector6d K :=
  (corres.map (fun c => residualOf source target c • rowOf source target c)).sum

/-- The twist vector the code solves for on an input with in-range indices. -/
def solvedTwist (sqrt : K → K) (unspecified : Matrix6d K → Vector6d K → Vector6d K)
    (source target : PointCloud K) (corres : CorrespondenceSet) : Vector6d K :=
  solveTwist sqrt unspecified (normalMatrix source target corres)
    (normalVector source target corres)

/-- The least-squares cost `Σ (A_i · x + r_i)²`. -/
def linearisedCost (source target : PointCloud K) (corres : CorrespondenceSet)
    (x : Vector6d K) : K :=
  (corres.map (fun c => (rowOf source target c ⬝ᵥ x + residualOf source target c) ^ 2)).sum

/-- Elemental rotation about the X axis. -/
def rotX (cos sin : K → K) (a : K) : Matrix3d K :=
  !![1, 0, 0; 0, cos a, -sin a; 0, sin a, cos a]

/-- Elemental rotation about the Y axis. -/
def rotY (cos sin : K → K) (a : K) : Matrix3d K :=
  !![cos a, 0, sin a; 0, 1, 0; -sin a, 0, cos a]

/-- Elemental rotation about the Z axis. -/
def rotZ (cos sin : K → K) (a : K) : Matrix3d K :=
  !![cos a, -sin a, 0; sin a, cos a, 0; 0, 0, 1]

/-! ## Notions used to state the point-to-point properties -/

/-- The columns of `source_mat`. -/
def sourceColumns (source : PointCloud K) (corres : CorrespondenceSet) : List (Vector3d K) :=
  corres.map (fun c => source.pointAt c.1)

/-- The columns of `target_mat`. -/
def targetColumns (target : PointCloud K) (corres : CorrespondenceSet) : List (Vector3d K) :=
  corres.map (fun c => target.pointAt c.2)

/-- Top-left 3x3 block of a 4x4 matrix. -/
def rotationBlock (M : Matrix4d K) : Matrix3d K := fun i j => M i.castSucc j.castSucc

/-- Top-right 3x1 block of a 4x4 matrix. -/
def translationBlock (M : Matrix4d K) : Vector3d K := fun i => M i.castSucc 3

/-- Orthogonal with determinant one. -/
def IsProperRotation (R : Matrix3d K) : Prop := Rᵀ * R = 1 ∧ R.det = 1

/-- What a singular value decomposition of `M` provides: orthogonal factors,
non-negative singular values in decreasing order, and `M = U diag(d) Vᵀ`. -/
def IsSVDOf (dec : JacobiSVD K) (M : Matrix3d K) : Prop :=
  dec.matrixUᵀ * dec.matrixU = 1 ∧ dec.matrixVᵀ * dec.matrixV = 1 ∧
  (0 ≤ dec.singularValues 2 ∧ dec.singularValues 2 ≤ dec.singularValues 1 ∧
    dec.singularValues 1 ≤ dec.singularValues 0) ∧
  M = dec.matrixU * Matrix.diagonal dec.singularValues * dec.matrixVᵀ

/-- Three of the points span a plane: the points are not all on one line. -/
def NotCollinear (pts : List (Vector3d K)) : Prop :=
  ∃ a ∈ pts, ∃ b ∈ pts, ∃ c ∈ pts, (b - a) ×₃ (c - a) ≠ 0

/-- The scatter matrix of a list of points: `(1/n) Σ xᵢ xᵢᵀ` over the centred
points. -/
def scatter (pts : List (Vector3d K)) : Matrix3d K :=
  (1 / (pts.length : K)) • ((demean pts).map (fun x => Matrix.vecMulVec x x)).sum

/-- The similarity `p ↦ s R p + t`. -/
def similarity (s : K) (R : Matrix3d K) (t : Vector3d K) (p : Vector3d K) : Vector3d K :=
  s • (R *ᵥ p) + t

/-- The identity pairing `(0,0), (1,1), ..., (n-1,n-1)`. -/
def identityPairing (n : ℕ) : CorrespondenceSet := (List.range n).map (fun i => (i, i))

/-! ## Predicates on matrices and on the square root (used to state the properties) -/

/-- Symmetric positive definite, spelled out with sums. -/
def IsSPD {n : ℕ} (A : Matrix (Fin n) (Fin n) K) : Prop :=
  (∀ i j, A i j = A j i) ∧ ∀ x : Fin n → K, x ≠ 0 → 0 < ∑ i, ∑ j, x i * A i j * x j

/-- Lower triangular with positive diagonal. -/
def IsLowerPos {n : ℕ} (L : Matrix (Fin n) (Fin n) K) : Prop :=
  (∀ i j, i < j → L i j = 0) ∧ ∀ i, 0 < L i i

/-- Exactness of the square root on positive arguments. -/
def IsSqrt (sqrt : K → K) : Prop := ∀ a : K, 0 < a → 0 < sqrt a ∧ sqrt a * sqrt a = a

/-! ## Concrete inputs -/

/-- One possible outcome of a solve after a failed factorisation: the zero
vector. -/
def zeroOnFailure : Matrix6d K → Vector6d K → Vector6d K := fun _ _ => 0


/-- Source cloud of the concrete scenario of the specification. -/
def scenarioSource : PointCloud K := ⟨[![0, 0, 0], ![1, 0, 0], ![0, 1, 0]], []⟩

/-- Target cloud of the concrete scenario: the source translated by (1,2,3),
every normal equal to (0,0,1). -/
def scenarioTarget : PointCloud K :=
  ⟨[![1, 2, 3], ![2, 2, 3], ![1, 3, 3]], [![0, 0, 1], ![0, 0, 1], ![0, 0, 1]]⟩

/-- The identity pairing of the concrete scenario. -/
def scenarioPairs : CorrespondenceSet := [(0, 0), (1, 1), (2, 2)]

/-- A target without normals. -/
def bareTarget : PointCloud K := ⟨[![1, 2, 3]], []⟩

/-- Two source points, the first one unit above the plane `z = 0`. -/
def liftedSource : PointCloud K := ⟨[![0, 0, 1], ![0, 0, 0]], []⟩

/-- Two target points at the origin with normal (0,0,1). -/
def flatTarget : PointCloud K := ⟨[![0, 0, 0], ![0, 0, 0]], [![0, 0, 1], ![0, 0, 1]]⟩

/-- Six source points for a well-conditioned point-to-plane problem. -/
def rigSource : PointCloud K :=
  ⟨[![0, 0, 0], ![0, 0, 0], ![0, 0, 0], ![0, 1, 0], ![0, 0, 1], ![0, 0, 1]], []⟩

/-- Six target points equal to the source points, with unit normals along the
coordinate axes: every residual is zero. -/
def rigTarget : PointCloud K :=
  ⟨[![0, 0, 0], ![0, 0, 0], ![0, 0, 0], ![0, 1, 0], ![0, 0, 1], ![0, 0, 1]],
   [![1, 0, 0], ![0, 1, 0], ![0, 0, 1], ![1, 0, 0], ![1, 0, 0], ![0, 1, 0]]⟩

/-- The same target translated by (1,2,3): the residuals are not zero. -/
def rigTargetShifted : PointCloud K :=
  ⟨[![1, 2, 3], ![1, 2, 3], ![1, 2, 3], ![1, 3, 3], ![1, 2, 4], ![1, 2, 4]],
   [![1, 0, 0], ![0, 1, 0], ![0, 0, 1], ![1, 0, 0], ![1, 0, 0], ![0, 1, 0]]⟩

/-- The identity pairing of six points. -/
def rigPairs : CorrespondenceSet := [(0, 0), (1, 1), (2, 2), (3, 3), (4, 4), (5, 5)]

/-- Four source points on the X and Y axes, with centroid at the origin. -/
def quadSource : PointCloud K := ⟨[![1, 0, 0], ![-1, 0, 0], ![0, 1, 0], ![0, -1, 0]], []⟩

/-- The four points turned by a quarter turn about Z and translated by
(1,2,3). -/
def quadTarget : PointCloud K := ⟨[![1, 3, 3], ![1, 1, 3], ![0, 2, 3], ![2, 2, 3]], []⟩

/-- The four points scaled by 2, turned by a quarter turn about Z and
translated by (1,2,3). -/
def quadTargetScaled : PointCloud K := ⟨[![1, 4, 3], ![1, 0, 3], ![-1, 2, 3], ![3, 2, 3]], []⟩

/-- Quarter turn about the Z axis. -/
def quarterTurn : Matrix3d K := !![0, -1, 0; 1, 0, 0; 0, 0, 1]

/-- A decomposition `U = quarter turn`, `d = (d, d, 0)`, `V = 1`. -/
def quadSVD (d : K) : Matrix3d K → JacobiSVD K := fun _ => ⟨quarterTurn, ![d, d, 0], 1⟩

/-- The matrix with columns `(r, -r, 0)`, `(r, r, 0)`, `(0, 0, 1)`; it is
orthogonal when `r * r = 1/2`. -/
def diagonalTurn (r : K) : Matrix3d K := !![r, r, 0; -r, r, 0; 0, 0, 1]

/-- A decomposition `U = V = diagonalTurn r`, `d = (1/3, 1/9, 0)`. -/
def scenarioSVD (r : K) : Matrix3d K → JacobiSVD K :=
  fun _ => ⟨diagonalTurn r, ![1 / 3, 1 / 9, 0], diagonalTurn r⟩

/-! ## Binary64 arithmetic

Everything above idealises `double` as a field.  Where rounding decides a
property (the order of a summation), the operations are rounded the way
IEEE 754 binary64 rounds them: to nearest, ties to even, 53 significant bits,
exponents from -1022 to 1023, gradual underflow.  A finite `double` is the
rational number it denotes, the sign of zero is dropped, and `none` stands for
a result that is not finite (an infinity or a NaN).  Every operation is
rounded on its own: no fused multiply-add and no extended precision. -/

/-- Position of the leading binary digit, by halving at most `fuel` times. -/
def log2Aux : ℕ → ℕ → ℕ
  | 0, _ => 0
  | fuel + 1, n => if n < 2 then 0 else log2Aux fuel (n / 2) + 1

/-- The integer `⌊log₂ n⌋` for `n > 0` (and 0 for `n = 0`). -/
def log2 (n : ℕ) : ℕ := log2Aux n n

/-- The power `2 ^ e` for an integer exponent. -/
def pow2 (e : ℤ) : ℚ :=
  if 0 ≤ e then ((2 ^ e.toNat : ℕ) : ℚ) else 1 / ((2 ^ (-e).toNat : ℕ) : ℚ)

/-- The binary exponent of a non-zero rational: the `e` with
`2 ^ e ≤ |q| < 2 ^ (e + 1)`. -/
def binade (q : ℚ) : ℤ :=
  let e0 : ℤ := (log2 q.num.natAbs : ℤ) - (log2 q.den : ℤ)
  if pow2 e0 ≤ |q| then e0 else e0 - 1

/-- Rounding to the nearest integer, a tie going to the even neighbour. -/
def roundHalfEven (q : ℚ) : ℤ :=
  let f := ⌊q⌋
  let r := q - f
  if r < 1 / 2 then f else if 1 / 2 < r then f + 1 else if f % 2 = 0 then f else f + 1

/-- The binary64 value of an exact result: the nearest multiple of the unit in
the last place of its binade (the binade of the subnormals below `2 ^ (-1022)`),
and no value when that is `2 ^ 1024` or more in magnitude (overflow). -/
def roundToDouble (q : ℚ) : Option ℚ :=
  if q = 0 then some 0
  else
    let u := pow2 (max (binade q) (-1022) - 52)
    let r := (roundHalfEven (q / u) : ℚ) * u
    if |r| < pow2 1024 then some r else none

/-- Binary64 addition. -/
def add64 (a b : ℚ) : Option ℚ := roundToDouble (a + b)

/-- Binary64 subtraction. -/
def sub64 (a b : ℚ) : Option ℚ := roundToDouble (a - b)

/-- Binary64 multiplication. -/
def mul64 (a b : ℚ) : Option ℚ := roundToDouble (a * b)

/-- Binary64 division (a division by zero gives an infinity or a NaN). -/
def div64 (a b : ℚ) : Option ℚ := if b = 0 then none else roundToDouble (a / b)

/-- Binary digits of the integer square root, from bit `k - 1` down. -/
def isqrtAux (n : ℕ) : ℕ → ℕ → ℕ
  | 0, r => r
  | k + 1, r =>
    if (r + 2 ^ k) * (r + 2 ^ k) ≤ n then isqrtAux n k (r + 2 ^ k) else isqrtAux n k r

/-- The integer `⌊√n⌋`. -/
def isqrt (n : ℕ) : ℕ := isqrtAux n (log2 n / 2 + 1) 0

/-- The function `std::sqrt` on binary64: the correctly rounded square root.
With `u` the unit in the last place of the root and `m = ⌊√q / u⌋`, the root
is rounded up exactly when `q` exceeds the square of the midpoint
`(m + 1/2) u`.  The exponent of the root is half that of `q`, rounded down.
The root of a negative number is a NaN. -/
def sqrt64 (q : ℚ) : Option ℚ :=
  if q < 0 then none
  else if q = 0 then some 0
  else
    let u := pow2 (binade q / 2 - 52)
    let m := isqrt ⌊q / (u * u)⌋.toNat
    let mid := ((m : ℚ) + 1 / 2) * u
    if q < mid * mid then some ((m : ℚ) * u)
    else if mid * mid < q then some (((m : ℚ) + 1) * u)
    else if m % 2 = 0 then some ((m : ℚ) * u) else some (((m : ℚ) + 1) * u)

/-- Eigen `(s - t).squaredNorm()` in binary64: the three differences, their
squares, and the sum of the squares, each operation rounded.  The order in
which the library adds the three squares is not fixed by the source; they are
added from left to right here. -/
def squaredNormDiff64 (s t : Vector3d ℚ) : Option ℚ := do
  let dx ← sub64 (s 0) (t 0)
  let dy ← sub64 (s 1) (t 1)
  let dz ← sub64 (s 2) (t 2)
  let xx ← mul64 dx dx
  let yy ← mul64 dy dy
  let zz ← mul64 dz dz
  let xy ← add64 xx yy
  add64 xy zz

/-- Body of the loop of source lines 40 to 42 in binary64:
`err += (source.points_[c[0]] - target.points_[c[1]]).squaredNorm()`. -/
def pointToPointStep64 (source target : PointCloud ℚ) (err : ℚ) (c : ℕ × ℕ) : Option ℚ := do
  let s ← source.points_[c.1]?
  let t ← target.points_[c.2]?
  let d ← squaredNormDiff64 s t
  add64 err d

/-- Source lines 34 to 44 in binary64.  The result is `none` when an index is
out of range or when the result is not finite. -/
def TransformationEstimationPointToPoint.ComputeRMSE64
    (_self : TransformationEstimationPointToPoint)
    (source target : PointCloud ℚ) (corres : CorrespondenceSet) : Option ℚ :=
  if corres.isEmpty then some 0
  else do
    let err ← corres.foldlM (pointToPointStep64 source target) 0
    let n ← roundToDouble (corres.length : ℚ)
    let mean ← div64 err n
    sqrt64 mean

/-- Every coordinate of every point of the cloud is a binary64 number. -/
def PointCloud.IsBinary64 (pc : PointCloud ℚ) : Prop :=
  ∀ p ∈ pc.points_, ∀ i : Fin 3, roundToDouble (p i) = some (p i)

/-- Three source points on the X axis, at 1e8, 1 and 1. -/
def spreadSource : PointCloud ℚ := ⟨[![100000000, 0, 0], ![1, 0, 0], ![1, 0, 0]], []⟩

/-- Three target points at the origin. -/
def originTarget : PointCloud ℚ := ⟨[![0, 0, 0], ![0, 0, 0], ![0, 0, 0]], []⟩

/-! ## Theorems -/

/-! ### Index reads -/

theorem getElem?_eq_some_getD {α : Type} (l : List α) (i : ℕ) (d : α) (h : i < l.length) :
    l[i]? = some (l.getD i d) := by
  simp [List.getD, List.getElem?_eq_getElem h]

theorem HasNormals_length {pc : PointCloud K} (h : pc.HasNormals = true) :
    pc.normals_.length = pc.points_.length := by
  simp [PointCloud.HasNormals] at h
  exact h.2

theorem points_getElem? (pc : PointCloud K) (i : ℕ) (h : i < pc.points_.length) :
    pc.points_[i]? = some (pc.pointAt i) :=
  getElem?_eq_some_getD _ _ _ h

theorem normals_getElem? (pc : PointCloud K) (i : ℕ) (hn : pc.HasNormals = true)
    (h : i < pc.points_.length) : pc.normals_[i]? = some (pc.normalAt i) :=
  getElem?_eq_some_getD _ _ _ (by rw [HasNormals_length hn]; exact h)

theorem InRange.head {source target : PointCloud K} {c : ℕ × ℕ} {cs : CorrespondenceSet}
    (h : InRange source target (c :: cs)) :
    c.1 < source.points_.length ∧ c.2 < target.points_.length :=
  h c (List.mem_cons_self _ _)

theorem InRange.tail {source target : PointCloud K} {c : ℕ × ℕ} {cs : CorrespondenceSet}
    (h : InRange source target (c :: cs)) : InRange source target cs :=
  fun d hd => h d (List.mem_cons_of_mem _ hd)

/-! ### The RMSE loops -/

theorem pointToPointStep_eq (source target : PointCloud K) (err : K) (c : ℕ × ℕ)
    (hc : c.1 < source.points_.length ∧ c.2 < target.points_.length) :
    pointToPointStep source target err c =
      some (err + squaredNorm (source.pointAt c.1 - target.pointAt c.2)) := by
  simp only [pointToPointStep, points_getElem? _ _ hc.1, points_getElem? _ _ hc.2]
  rfl

/-- The point-to-point loop adds the squared distances to the accumulator. -/
theorem pointToPoint_fold (source target : PointCloud K) (corres : CorrespondenceSet)
    (init : K) (hin : InRange source target corres) :
    corres.foldlM (pointToPointStep source target) init =
      some (init + (corres.map (fun c =>
        squaredNorm (source.pointAt c.1 - target.pointAt c.2))).sum) := by
  induction corres generalizing init with
  | nil => simp
  | cons c cs ih =>
    rw [List.foldlM_cons, pointToPointStep_eq _ _ _ _ hin.head]
    simp only [Option.bind_eq_bind, Option.some_bind, List.map_cons, List.sum_cons]
    rw [ih _ hin.tail, add_assoc]

theorem pointToPlaneStep_eq (source target : PointCloud K) (err : K) (c : ℕ × ℕ)
    (hn : target.HasNormals = true)
    (hc : c.1 < source.points_.length ∧ c.2 < target.points_.length) :
    pointToPlaneStep source target err c =
      some (residual (source.pointAt c.1) (target.pointAt c.2) (target.normalAt c.2) *
            residual (source.pointAt c.1) (target.pointAt c.2) (target.normalAt c.2)) := by
  simp only [pointToPlaneStep, points_getElem? _ _ hc.1, points_getElem? _ _ hc.2,
    normals_getElem? _ _ hn hc.2]
  rfl

/-- The point-to-plane loop leaves the squared residual of the last
correspondence in the accumulator. -/
theorem pointToPlane_fold (source target : PointCloud K) (corres : CorrespondenceSet)
    (init : K) (hn : target.HasNormals = true) (hin : InRange source target corres) :
    corres.foldlM (pointToPlaneStep source target) init =
      some ((corres.map (fun c =>
        residual (source.pointAt c.1) (target.pointAt c.2) (target.normalAt c.2) *
        residual (source.pointAt c.1) (target.pointAt c.2) (target.normalAt c.2))).getLast?.getD
          init) := by
  induction corres generalizing init with
  | nil => simp
  | cons c cs ih =>
    rw [List.foldlM_cons, pointToPlaneStep_eq _ _ _ _ hn hin.head]
    simp only [Option.bind_eq_bind, Option.some_bind]
    rw [ih _ hin.tail]
    cases cs with
    | nil => simp
    | cons d ds =>
      simp only [List.map_cons, List.getLast?_cons_cons]
      rw [List.getLast?_eq_getLast _ (List.cons_ne_nil _ _)]
      rfl

/-! ### Neutral results -/

/-- C1: with the empty correspondence set, for all clouds, ComputeTransformation
returns the 4x4 identity and ComputeRMSE returns 0, for the point-to-point
variant with either value of the scaling flag and for the point-to-plane
variant. -/
theorem empty_correspondences_neutral (with_scaling : Bool)
    (svd : Matrix3d K → JacobiSVD K) (sqrt cos sin : K → K)
    (unspecified : Matrix6d K → Vector6d K → Vector6d K) (source target : PointCloud K) :
    (TransformationEstimationPointToPoint.mk with_scaling).ComputeTransformation svd
        source target [] = some 1 ∧
    (TransformationEstimationPointToPoint.mk with_scaling).ComputeRMSE sqrt
        source target [] = some 0 ∧
    TransformationEstimationPointToPlane.mk.ComputeTransformation sqrt cos sin unspecified
        source target [] = some 1 ∧
    TransformationEstimationPointToPlane.mk.ComputeRMSE sqrt source target [] = some 0 :=
  ⟨rfl, rfl, rfl, rfl⟩

/-- C2: when the target has no normals, point-to-plane ComputeRMSE returns 0
and ComputeTransformation returns the identity for every source cloud and
every correspondence set, also one whose indices address no point: no point or
normal is read. -/
theorem missing_normals_neutral (self : TransformationEstimationPointToPlane)
    (sqrt cos sin : K → K) (unspecified : Matrix6d K → Vector6d K → Vector6d K)
    (source target : PointCloud K) (corres : CorrespondenceSet)
    (hn : target.HasNormals = false) :
    self.ComputeRMSE sqrt source target corres = some 0 ∧
    self.ComputeTransformation sqrt cos sin unspecified source target corres = some 1 := by
  simp [TransformationEstimationPointToPlane.ComputeRMSE,
    TransformationEstimationPointToPlane.ComputeTransformation, hn]

/-- Witness of C2: a target without normals and a correspondence whose indices
are out of range. -/
theorem missing_normals_neutral_witness :
    (bareTarget : PointCloud ℚ).HasNormals = false ∧
    (TransformationEstimationPointToPlane.mk.ComputeRMSE id
        (scenarioSource : PointCloud ℚ) bareTarget [(7, 9)] = some 0 ∧
     TransformationEstimationPointToPlane.mk.ComputeTransformation id id id zeroOnFailure
        (scenarioSource : PointCloud ℚ) bareTarget [(7, 9)] = some 1) :=
  ⟨by decide, missing_normals_neutral _ _ _ _ _ _ _ _ (by decide)⟩

/-! ### Root mean square errors -/

/-- C3: for a non-empty correspondence list with indices in range,
point-to-point ComputeRMSE returns the square root of the sum of the squared
distances of all pairs divided by their number, whatever the scaling flag. -/
theorem pointToPoint_rmse (self : TransformationEstimationPointToPoint) (sqrt : K → K)
    (source target : PointCloud K) (corres : CorrespondenceSet) (hne : corres ≠ [])
    (hin : InRange source target corres) :
    self.ComputeRMSE sqrt source target corres =
      some (sqrt ((corres.map (fun c =>
        squaredNorm (source.pointAt c.1 - target.pointAt c.2))).sum / (corres.length : K))) := by
  unfold TransformationEstimationPointToPoint.ComputeRMSE
  rw [if_neg (by simpa using hne), pointToPoint_fold source target corres 0 hin]
  simp

/-- Witness of C3: the concrete scenario of the specification. -/
theorem pointToPoint_rmse_witness :
    scenarioPairs ≠ [] ∧
    InRange (scenarioSource : PointCloud ℚ) scenarioTarget scenarioPairs ∧
    (TransformationEstimationPointToPoint.mk true).ComputeRMSE id
        (scenarioSource : PointCloud ℚ) scenarioTarget scenarioPairs =
      some (id ((scenarioPairs.map (fun c =>
        squaredNorm ((scenarioSource : PointCloud ℚ).pointAt c.1 -
          (scenarioTarget : PointCloud ℚ).pointAt c.2))).sum /
            ((scenarioPairs.length : ℕ) : ℚ))) :=
  ⟨by decide, by simp [InRange, scenarioSource, scenarioTarget, scenarioPairs],
    pointToPoint_rmse (TransformationEstimationPointToPoint.mk true) id
      (scenarioSource : PointCloud ℚ) scenarioTarget scenarioPairs (by decide)
      (by simp [InRange, scenarioSource, scenarioTarget, scenarioPairs])⟩

/-- C4 (evaluation at the failing input): with residuals 1 and 0 the
point-to-plane ComputeRMSE returns 0, while the root of the mean of the squared
residuals over both correspondences is not 0. -/
theorem pointToPlane_rmse_overwrites :
    (flatTarget : PointCloud ℝ).HasNormals = true ∧
    InRange (liftedSource : PointCloud ℝ) flatTarget [(0, 0), (1, 1)] ∧
    TransformationEstimationPointToPlane.mk.ComputeRMSE Real.sqrt
      (liftedSource : PointCloud ℝ) flatTarget [(0, 0), (1, 1)] = some 0 ∧
    Real.sqrt ((([(0, 0), (1, 1)] : CorrespondenceSet).map (fun c =>
        residual ((liftedSource : PointCloud ℝ).pointAt c.1)
          ((flatTarget : PointCloud ℝ).pointAt c.2)
          ((flatTarget : PointCloud ℝ).normalAt c.2) ^ 2)).sum / 2) ≠ 0 := by
  have hn : (flatTarget : PointCloud ℝ).HasNormals = true := by
    simp [PointCloud.HasNormals, flatTarget]
  refine ⟨hn, by simp [InRange, liftedSource, flatTarget], ?_, ?_⟩
  · have h0 : ∀ e : ℝ,
        pointToPlaneStep (liftedSource : PointCloud ℝ) flatTarget e (0, 0) = some 1 := by
      intro e
      simp only [pointToPlaneStep, liftedSource, flatTarget, List.getElem?_cons_zero]
      simp [residual]
    have h1 : ∀ e : ℝ,
        pointToPlaneStep (liftedSource : PointCloud ℝ) flatTarget e (1, 1) = some 0 := by
      intro e
      simp only [pointToPlaneStep, liftedSource, flatTarget, List.getElem?_cons_succ,
        List.getElem?_cons_zero]
      simp [residual]
    simp only [TransformationEstimationPointToPlane.ComputeRMSE, hn, List.foldlM_cons,
      List.foldlM_nil, h0, h1, Option.bind_eq_bind, Option.some_bind, Option.pure_def,
      List.isEmpty_cons]
    simp
  · have e0 : residual ((liftedSource : PointCloud ℝ).pointAt 0)
        ((flatTarget : PointCloud ℝ).pointAt 0) ((flatTarget : PointCloud ℝ).normalAt 0) = 1 := by
      simp [liftedSource, flatTarget, residual, PointCloud.pointAt, PointCloud.normalAt]
    have e1 : residual ((liftedSource : PointCloud ℝ).pointAt 1)
        ((flatTarget : PointCloud ℝ).pointAt 1) ((flatTarget : PointCloud ℝ).normalAt 1) = 0 := by
      simp only [liftedSource, flatTarget, PointCloud.pointAt, PointCloud.normalAt,
        List.getD_cons_succ, List.getD_cons_zero]
      simp [residual]
    simp only [List.map_cons, List.map_nil, List.sum_cons, List.sum_nil, e0, e1]
    norm_num

/-! ### The point-to-plane accumulation loop -/

theorem accumulateStep_eq (source target : PointCloud K) (acc : Matrix6d K × Vector6d K)
    (c : ℕ × ℕ) (hn : target.HasNormals = true)
    (hc : c.1 < source.points_.length ∧ c.2 < target.points_.length) :
    accumulateStep source target acc c =
      some (acc.1 + Matrix.vecMulVec (rowOf source target c) (rowOf source target c),
            acc.2 + residualOf source target c • rowOf source target c) := by
  simp only [accumulateStep, points_getElem? _ _ hc.1, points_getElem? _ _ hc.2,
    normals_getElem? _ _ hn hc.2]
  rfl

theorem accumulate_fold (source target : PointCloud K) (corres : CorrespondenceSet)
    (acc : Matrix6d K × Vector6d K) (hn : target.HasNormals = true)
    (hin : InRange source target corres) :
    corres.foldlM (accumulateStep source target) acc =
      some (acc.1 + normalMatrix source target corres,
            acc.2 + normalVector source target corres) := by
  induction corres generalizing acc with
  | nil => simp [normalMatrix, normalVector]
  | cons c cs ih =>
    rw [List.foldlM_cons, accumulateStep_eq _ _ _ _ hn hin.head]
    simp only [Option.bind_eq_bind, Option.some_bind]
    rw [ih _ hin.tail]
    simp only [normalMatrix, normalVector, List.map_cons, List.sum_cons, add_assoc]

/-- The loop of source lines 86 to 95 leaves `ATA = Σ A_i A_iᵀ` and
`ATb = Σ A_i r_i`. -/
theorem accumulate_eq (source target : PointCloud K) (corres : CorrespondenceSet)
    (hn : target.HasNormals = true) (hin : InRange source target corres) :
    accumulate source target corres =
      some (normalMatrix source target corres, normalVector source target corres) := by
  rw [accumulate, accumulate_fold _ _ _ _ hn hin]
  simp

/-- Past its guard, point-to-plane ComputeTransformation is the matrix built
from the solved twist. -/
theorem pointToPlane_transformation_eq (self : TransformationEstimationPointToPlane)
    (sqrt cos sin : K → K) (unspecified : Matrix6d K → Vector6d K → Vector6d K)
    (source target : PointCloud K) (corres : CorrespondenceSet)
    (hne : corres ≠ []) (hn : target.HasNormals = true) (hin : InRange source target corres) :
    self.ComputeTransformation sqrt cos sin unspecified source target corres =
      some (twistToMatrix cos sin (solvedTwist sqrt unspecified source target corres)) := by
  unfold TransformationEstimationPointToPlane.ComputeTransformation
  have h1 : corres.isEmpty = false := by simpa using hne
  simp only [h1, hn, accumulate_eq _ _ _ hn hin]
  rfl

/-! ### Angle-axis rotations about the coordinate axes -/

theorem toRotationMatrix_UnitX (cos sin : K → K) (a : K) :
    (AngleAxisd.mk a UnitX).toRotationMatrix cos sin = rotX cos sin a := by
  ext i j
  fin_cases i <;> fin_cases j <;> simp [AngleAxisd.toRotationMatrix, UnitX, rotX]

theorem toRotationMatrix_UnitY (cos sin : K → K) (a : K) :
    (AngleAxisd.mk a UnitY).toRotationMatrix cos sin = rotY cos sin a := by
  ext i j
  fin_cases i <;> fin_cases j <;> simp [AngleAxisd.toRotationMatrix, UnitY, rotY]

theorem toRotationMatrix_UnitZ (cos sin : K → K) (a : K) :
    (AngleAxisd.mk a UnitZ).toRotationMatrix cos sin = rotZ cos sin a := by
  ext i j
  fin_cases i <;> fin_cases j <;> simp [AngleAxisd.toRotationMatrix, UnitZ, rotZ]

/-- C9: past the guard (target with normals, non-empty correspondences in
range), with `x` the solved twist, the returned matrix has top-left 3x3 block
`Rz(x 2) * Ry(x 1) * Rx(x 0)`, top-right column `(x 3, x 4, x 5)` and bottom
row `(0, 0, 0, 1)`. -/
theorem twist_matrix_blocks (self : TransformationEstimationPointToPlane)
    (sqrt cos sin : K → K) (unspecified : Matrix6d K → Vector6d K → Vector6d K)
    (source target : PointCloud K) (corres : CorrespondenceSet)
    (hne : corres ≠ []) (hn : target.HasNormals = true) (hin : InRange source target corres) :
    ∃ M : Matrix4d K,
      self.ComputeTransformation sqrt cos sin unspecified source target corres = some M ∧
      (∀ i j : Fin 3, M i.castSucc j.castSucc =
        (rotZ cos sin (solvedTwist sqrt unspecified source target corres 2) *
         rotY cos sin (solvedTwist sqrt unspecified source target corres 1) *
         rotX cos sin (solvedTwist sqrt unspecified source target corres 0)) i j) ∧
      (M 0 3 = solvedTwist sqrt unspecified source target corres 3 ∧
       M 1 3 = solvedTwist sqrt unspecified source target corres 4 ∧
       M 2 3 = solvedTwist sqrt unspecified source target corres 5) ∧
      (M 3 0 = 0 ∧ M 3 1 = 0 ∧ M 3 2 = 0 ∧ M 3 3 = 1) := by
  refine ⟨_, pointToPlane_transformation_eq self sqrt cos sin unspecified source target corres
      hne hn hin,
    ?_, ⟨rfl, rfl, rfl⟩, ⟨rfl, rfl, rfl, rfl⟩⟩
  intro i j
  rw [twistToMatrix, toRotationMatrix_UnitX, toRotationMatrix_UnitY, toRotationMatrix_UnitZ]
  fin_cases i <;> fin_cases j <;> rfl

/-- Witness of C9: the concrete scenario of the specification. -/
theorem twist_matrix_blocks_witness :
    scenarioPairs ≠ [] ∧
    (scenarioTarget : PointCloud ℚ).HasNormals = true ∧
    InRange (scenarioSource : PointCloud ℚ) scenarioTarget scenarioPairs ∧
    ∃ M : Matrix4d ℚ,
      TransformationEstimationPointToPlane.mk.ComputeTransformation id id id zeroOnFailure
        scenarioSource scenarioTarget scenarioPairs = some M ∧
      (∀ i j : Fin 3, M i.castSucc j.castSucc =
        ((rotZ id id (solvedTwist id zeroOnFailure scenarioSource scenarioTarget scenarioPairs 2) *
          rotY id id (solvedTwist id zeroOnFailure scenarioSource scenarioTarget scenarioPairs 1) *
          rotX id id (solvedTwist id zeroOnFailure scenarioSource scenarioTarget scenarioPairs 0) :
            Matrix3d ℚ)) i j) ∧
      (M 0 3 = solvedTwist id zeroOnFailure scenarioSource scenarioTarget scenarioPairs 3 ∧
       M 1 3 = solvedTwist id zeroOnFailure scenarioSource scenarioTarget scenarioPairs 4 ∧
       M 2 3 = solvedTwist id zeroOnFailure scenarioSource scenarioTarget scenarioPairs 5) ∧
      (M 3 0 = 0 ∧ M 3 1 = 0 ∧ M 3 2 = 0 ∧ M 3 3 = 1) :=
  ⟨by decide, by decide, by simp [InRange, scenarioSource, scenarioTarget, scenarioPairs],
    twist_matrix_blocks TransformationEstimationPointToPlane.mk id id id zeroOnFailure
      (scenarioSource : PointCloud ℚ) scenarioTarget scenarioPairs (by decide) (by decide)
      (by simp [InRange, scenarioSource, scenarioTarget, scenarioPairs])⟩

/-! ### The Cholesky solver -/

theorem IsSPD.head_pos {n : ℕ} {A : Matrix (Fin (n + 1)) (Fin (n + 1)) K} (h : IsSPD A) :
    0 < A 0 0 := by
  have h1 := h.2 (Pi.single 0 1) (by
    intro h0
    have := congrFun h0 0
    simp at this)
  simpa [Fin.sum_univ_succ, Pi.single_apply, Fin.succ_ne_zero] using h1

theorem IsSPD.schur {n : ℕ} {A : Matrix (Fin (n + 1)) (Fin (n + 1)) K} (h : IsSPD A)
    (l : K) (hl : l * l = A 0 0) :
    IsSPD (fun i j : Fin n => A i.succ j.succ - A i.succ 0 / l * (A j.succ 0 / l)) := by
  have ha := h.head_pos
  have hl0 : l ≠ 0 := by
    rintro rfl
    simp at hl
    exact absurd hl.symm (ne_of_gt ha)
  refine ⟨fun i j => ?_, fun x hx => ?_⟩
  · show A i.succ j.succ - _ = A j.succ i.succ - _
    rw [h.1 i.succ j.succ, mul_comm]
  · set t : K := ∑ i : Fin n, A i.succ 0 * x i with ht
    set Q : K := ∑ i : Fin n, ∑ j : Fin n, x i * A i.succ j.succ * x j with hQ
    have hy : (Fin.cons (-(t / A 0 0)) x : Fin (n + 1) → K) ≠ 0 := by
      intro h0
      apply hx
      funext i
      have := congrFun h0 i.succ
      simpa using this
    have hpos := h.2 _ hy
    have e1 : ∑ j : Fin n, -(t / A 0 0) * A 0 j.succ * x j = -(t / A 0 0) * t := by
      rw [ht, Finset.mul_sum]
      refine Finset.sum_congr rfl (fun j _ => ?_)
      rw [h.1 0 j.succ]; ring
    have e2 : ∑ i : Fin n, (x i * A i.succ 0 * -(t / A 0 0) +
        ∑ j : Fin n, x i * A i.succ j.succ * x j) = t * -(t / A 0 0) + Q := by
      rw [Finset.sum_add_distrib, ht, Finset.sum_mul]
      congr 1
      refine Finset.sum_congr rfl (fun j _ => ?_)
      ring
    have e3 : ∑ i : Fin n, ∑ j : Fin n,
        x i * (A i.succ j.succ - A i.succ 0 / l * (A j.succ 0 / l)) * x j
        = Q - (t / l) * (t / l) := by
      have : (t / l) * (t / l) = ∑ i : Fin n, ∑ j : Fin n,
          (A i.succ 0 / l * x i) * (A j.succ 0 / l * x j) := by
        rw [← Finset.sum_mul_sum, ht, Finset.sum_div]
        congr 1 <;> exact Finset.sum_congr rfl (fun j _ => by ring)
      rw [this, hQ, ← Finset.sum_sub_distrib]
      refine Finset.sum_congr rfl (fun i _ => ?_)
      rw [← Finset.sum_sub_distrib]
      refine Finset.sum_congr rfl (fun j _ => ?_)
      ring
    rw [e3]
    simp only [Fin.sum_univ_succ, Fin.cons_zero, Fin.cons_succ, e1, e2] at hpos
    have : Q - t / l * (t / l) =
        -(t / A 0 0) * A 0 0 * -(t / A 0 0) + -(t / A 0 0) * t + (t * -(t / A 0 0) + Q) := by
      rw [← hl]; field_simp; ring
    rw [this]; exact hpos

theorem cholesky_zero_zero (sqrt : K → K) {n : ℕ} (A : Matrix (Fin (n + 1)) (Fin (n + 1)) K) :
    cholesky sqrt (n + 1) A 0 0 = sqrt (A 0 0) := rfl

theorem cholesky_zero_succ (sqrt : K → K) {n : ℕ} (A : Matrix (Fin (n + 1)) (Fin (n + 1)) K)
    (j : Fin n) : cholesky sqrt (n + 1) A 0 j.succ = 0 := rfl

theorem cholesky_succ_zero (sqrt : K → K) {n : ℕ} (A : Matrix (Fin (n + 1)) (Fin (n + 1)) K)
    (i : Fin n) : cholesky sqrt (n + 1) A i.succ 0 = A i.succ 0 / sqrt (A 0 0) := rfl

theorem cholesky_succ_succ (sqrt : K → K) {n : ℕ} (A : Matrix (Fin (n + 1)) (Fin (n + 1)) K)
    (i j : Fin n) :
    cholesky sqrt (n + 1) A i.succ j.succ =
      cholesky sqrt n (fun i j : Fin n =>
        A i.succ j.succ - A i.succ 0 / sqrt (A 0 0) * (A j.succ 0 / sqrt (A 0 0))) i j := rfl

theorem cholesky_spec (sqrt : K → K) (hs : IsSqrt sqrt) :
    ∀ (n : ℕ) (A : Matrix (Fin n) (Fin n) K), IsSPD A →
      IsLowerPos (cholesky sqrt n A) ∧
      ∀ i j, ∑ k, cholesky sqrt n A i k * cholesky sqrt n A j k = A i j := by
  intro n
  induction n with
  | zero =>
    intro A _
    exact ⟨⟨fun i => i.elim0, fun i => i.elim0⟩, fun i => i.elim0⟩
  | succ n ih =>
    intro A hA
    obtain ⟨hlpos, hll⟩ := hs (A 0 0) hA.head_pos
    have hl0 : sqrt (A 0 0) ≠ 0 := ne_of_gt hlpos
    obtain ⟨⟨htri, hdiag⟩, hprod⟩ := ih _ (hA.schur (sqrt (A 0 0)) hll)
    refine ⟨⟨?_, ?_⟩, ?_⟩
    · intro i j
      induction i using Fin.cases with
      | zero =>
        induction j using Fin.cases with
        | zero => intro h; exact absurd h (lt_irrefl _)
        | succ j => intro _; rfl
      | succ i =>
        induction j using Fin.cases with
        | zero => intro h; exact absurd h (Fin.not_lt_zero _)
        | succ j =>
          intro h
          rw [cholesky_succ_succ]
          exact htri i j (Fin.succ_lt_succ_iff.mp h)
    · intro i
      induction i using Fin.cases with
      | zero => exact hlpos
      | succ i => rw [cholesky_succ_succ]; exact hdiag i
    · intro i j
      rw [Fin.sum_univ_succ]
      induction i using Fin.cases with
      | zero =>
        induction j using Fin.cases with
        | zero =>
          simp only [cholesky_zero_zero, cholesky_zero_succ, mul_zero, Finset.sum_const_zero,
            add_zero]
          exact hll
        | succ j =>
          simp only [cholesky_zero_zero, cholesky_zero_succ, cholesky_succ_zero, zero_mul,
            Finset.sum_const_zero, add_zero]
          rw [hA.1 0 j.succ]
          field_simp
      | succ i =>
        induction j using Fin.cases with
        | zero =>
          simp only [cholesky_zero_zero, cholesky_zero_succ, cholesky_succ_zero, mul_zero,
            Finset.sum_const_zero, add_zero]
          field_simp
        | succ j =>
          simp only [cholesky_succ_zero, cholesky_succ_succ]
          rw [hprod i j]
          ring

theorem forwardSubst_zero {n : ℕ} (L : Matrix (Fin (n + 1)) (Fin (n + 1)) K)
    (b : Fin (n + 1) → K) : forwardSubst (n + 1) L b 0 = b 0 / L 0 0 := rfl

theorem forwardSubst_succ {n : ℕ} (L : Matrix (Fin (n + 1)) (Fin (n + 1)) K)
    (b : Fin (n + 1) → K) (i : Fin n) :
    forwardSubst (n + 1) L b i.succ =
      forwardSubst n (fun i j : Fin n => L i.succ j.succ)
        (fun i => b i.succ - L i.succ 0 * (b 0 / L 0 0)) i := rfl

theorem backwardSubst_succ {n : ℕ} (L : Matrix (Fin (n + 1)) (Fin (n + 1)) K)
    (y : Fin (n + 1) → K) (i : Fin n) :
    backwardSubst (n + 1) L y i.succ =
      backwardSubst n (fun i j : Fin n => L i.succ j.succ) (fun i => y i.succ) i := rfl

theorem backwardSubst_zero {n : ℕ} (L : Matrix (Fin (n + 1)) (Fin (n + 1)) K)
    (y : Fin (n + 1) → K) :
    backwardSubst (n + 1) L y 0 =
      (y 0 - ∑ j : Fin n, L j.succ 0 *
        backwardSubst n (fun i j : Fin n => L i.succ j.succ) (fun i => y i.succ) j) / L 0 0 :=
  rfl

theorem forwardSubst_spec :
    ∀ (n : ℕ) (L : Matrix (Fin n) (Fin n) K) (b : Fin n → K),
      (∀ i j, i < j → L i j = 0) → (∀ i, L i i ≠ 0) →
      ∀ i, ∑ j, L i j * forwardSubst n L b j = b i := by
  intro n
  induction n with
  | zero => intro L b _ _ i; exact i.elim0
  | succ n ih =>
    intro L b htri hdiag i
    have hsub := ih (fun i j : Fin n => L i.succ j.succ)
      (fun i => b i.succ - L i.succ 0 * (b 0 / L 0 0))
      (fun i j h => htri _ _ (Fin.succ_lt_succ_iff.mpr h)) (fun i => hdiag _)
    rw [Fin.sum_univ_succ]
    induction i using Fin.cases with
    | zero =>
      have : ∀ j : Fin n, L 0 j.succ * forwardSubst (n + 1) L b j.succ = 0 := fun j => by
        rw [htri 0 j.succ (Fin.succ_pos j), zero_mul]
      simp only [this, Finset.sum_const_zero, add_zero, forwardSubst_zero]
      field_simp [hdiag 0]
    | succ i =>
      simp only [forwardSubst_zero, forwardSubst_succ]
      rw [hsub i]
      ring

theorem backwardSubst_spec :
    ∀ (n : ℕ) (L : Matrix (Fin n) (Fin n) K) (y : Fin n → K),
      (∀ i j, i < j → L i j = 0) → (∀ i, L i i ≠ 0) →
      ∀ i, ∑ j, L j i * backwardSubst n L y j = y i := by
  intro n
  induction n with
  | zero => intro L y _ _ i; exact i.elim0
  | succ n ih =>
    intro L y htri hdiag i
    have hsub := ih (fun i j : Fin n => L i.succ j.succ) (fun i => y i.succ)
      (fun i j h => htri _ _ (Fin.succ_lt_succ_iff.mpr h)) (fun i => hdiag _)
    rw [Fin.sum_univ_succ]
    induction i using Fin.cases with
    | zero =>
      simp only [backwardSubst_zero, backwardSubst_succ]
      field_simp [hdiag 0]
    | succ i =>
      simp only [backwardSubst_succ]
      rw [htri 0 i.succ (Fin.succ_pos i), zero_mul, zero_add]
      exact hsub i

theorem isSqrt_real : IsSqrt Real.sqrt := fun _ ha =>
  ⟨Real.sqrt_pos.mpr ha, Real.mul_self_sqrt ha.le⟩

theorem pivotsPositive_of_isSPD (sqrt : K → K) (hs : IsSqrt sqrt) :
    ∀ (n : ℕ) (A : Matrix (Fin n) (Fin n) K), IsSPD A → pivotsPositive sqrt n A = true := by
  intro n
  induction n with
  | zero => intro A _; rfl
  | succ n ih =>
    intro A hA
    obtain ⟨-, hll⟩ := hs (A 0 0) hA.head_pos
    simp only [pivotsPositive, Bool.and_eq_true, decide_eq_true_eq]
    exact ⟨hA.head_pos, ih _ (hA.schur (sqrt (A 0 0)) hll)⟩

/-- On a symmetric positive definite matrix the factorisation succeeds. -/
theorem llt_info_success (sqrt : K → K) (hs : IsSqrt sqrt) {n : ℕ}
    (A : Matrix (Fin n) (Fin n) K) (hA : IsSPD A) :
    (llt sqrt A).info = ComputationInfo.Success := by
  simp [llt, pivotsPositive_of_isSPD sqrt hs n A hA]

/-- For a symmetric positive definite matrix and an exact square root, the
Cholesky solver returns the solution of the linear system. -/
theorem llt_solve_spec (sqrt : K → K) (hs : IsSqrt sqrt) {n : ℕ}
    (A : Matrix (Fin n) (Fin n) K) (hA : IsSPD A)
    (unspecified : Matrix (Fin n) (Fin n) K → (Fin n → K) → Fin n → K) (b : Fin n → K) :
    A *ᵥ ((llt sqrt A).solve unspecified b) = b := by
  obtain ⟨⟨htri, hdiag⟩, hprod⟩ := cholesky_spec sqrt hs n A hA
  have hd : ∀ i, cholesky sqrt n A i i ≠ 0 := fun i => ne_of_gt (hdiag i)
  have hsolve : (llt sqrt A).solve unspecified b =
      backwardSubst n (cholesky sqrt n A) (forwardSubst n (cholesky sqrt n A) b) := by
    simp only [LLT.solve, llt_info_success sqrt hs A hA]
    rfl
  rw [hsolve]
  funext i
  simp only [Matrix.mulVec, Matrix.dotProduct]
  have h1 : ∀ j, A i j = ∑ k, cholesky sqrt n A i k * cholesky sqrt n A j k :=
    fun j => (hprod i j).symm
  simp only [h1, Finset.sum_mul]
  rw [Finset.sum_comm]
  have h2 : ∀ k, ∑ j, cholesky sqrt n A i k * cholesky sqrt n A j k *
      backwardSubst n (cholesky sqrt n A) (forwardSubst n (cholesky sqrt n A) b) j =
      cholesky sqrt n A i k * forwardSubst n (cholesky sqrt n A) b k := by
    intro k
    rw [← backwardSubst_spec n (cholesky sqrt n A) (forwardSubst n (cholesky sqrt n A) b)
      htri hd k, Finset.mul_sum]
    exact Finset.sum_congr rfl (fun j _ => by ring)
  simp only [h2]
  exact forwardSubst_spec n _ b htri hd i

/-! ### The normal equations -/

theorem vecMulVec_self_mulVec {n : ℕ} (a v : Fin n → K) :
    Matrix.vecMulVec a a *ᵥ v = (a ⬝ᵥ v) • a := by
  funext i
  simp only [Matrix.mulVec, Matrix.dotProduct, Matrix.vecMulVec_apply, Pi.smul_apply,
    smul_eq_mul, Finset.sum_mul]
  exact Finset.sum_congr rfl (fun j _ => by ring)

theorem normalMatrix_cons (source target : PointCloud K) (c : ℕ × ℕ) (cs : CorrespondenceSet) :
    normalMatrix source target (c :: cs) =
      Matrix.vecMulVec (rowOf source target c) (rowOf source target c) +
        normalMatrix source target cs := by
  simp [normalMatrix]

theorem normalVector_cons (source target : PointCloud K) (c : ℕ × ℕ) (cs : CorrespondenceSet) :
    normalVector source target (c :: cs) =
      residualOf source target c • rowOf source target c + normalVector source target cs := by
  simp [normalVector]

theorem linearisedCost_cons (source target : PointCloud K) (c : ℕ × ℕ) (cs : CorrespondenceSet)
    (x : Vector6d K) :
    linearisedCost source target (c :: cs) x =
      (rowOf source target c ⬝ᵥ x + residualOf source target c) ^ 2 +
        linearisedCost source target cs x := by
  simp [linearisedCost]

/-- The quadratic form of `ATA` is the sum of the squares `(A_i · d)²`. -/
theorem normalMatrix_quadratic (source target : PointCloud K) (corres : CorrespondenceSet)
    (d : Vector6d K) :
    d ⬝ᵥ (normalMatrix source target corres *ᵥ d) =
      (corres.map (fun c => (rowOf source target c ⬝ᵥ d) ^ 2)).sum := by
  induction corres with
  | nil => simp [normalMatrix]
  | cons c cs ih =>
    rw [normalMatrix_cons, Matrix.add_mulVec, Matrix.dotProduct_add, ih, vecMulVec_self_mulVec,
      Matrix.dotProduct_smul, Matrix.dotProduct_comm d]
    simp only [List.map_cons, List.sum_cons, smul_eq_mul]
    ring

/-- Expansion of the least-squares cost around a point. -/
theorem linearisedCost_add (source target : PointCloud K) (corres : CorrespondenceSet)
    (x d : Vector6d K) :
    linearisedCost source target corres (x + d) =
      linearisedCost source target corres x +
        d ⬝ᵥ (normalMatrix source target corres *ᵥ d) +
        2 * (d ⬝ᵥ (normalMatrix source target corres *ᵥ x +
          normalVector source target corres)) := by
  induction corres with
  | nil => simp [linearisedCost, normalMatrix, normalVector]
  | cons c cs ih =>
    rw [linearisedCost_cons, linearisedCost_cons, ih, normalMatrix_cons, normalVector_cons]
    simp only [Matrix.add_mulVec, Matrix.dotProduct_add, vecMulVec_self_mulVec,
      Matrix.dotProduct_smul, smul_eq_mul, Matrix.dotProduct_comm d (rowOf source target c)]
    ring

theorem normalMatrix_symm (source target : PointCloud K) (corres : CorrespondenceSet)
    (i j : Fin 6) :
    normalMatrix source target corres i j = normalMatrix source target corres j i := by
  induction corres with
  | nil => simp [normalMatrix]
  | cons c cs ih =>
    rw [normalMatrix_cons, Matrix.add_apply, Matrix.add_apply, ih, Matrix.vecMulVec_apply,
      Matrix.vecMulVec_apply, mul_comm]

theorem quadratic_eq_sum {n : ℕ} (A : Matrix (Fin n) (Fin n) K) (x : Fin n → K) :
    x ⬝ᵥ (A *ᵥ x) = ∑ i, ∑ j, x i * A i j * x j := by
  simp only [Matrix.dotProduct, Matrix.mulVec, Finset.mul_sum, mul_assoc]

theorem isSPD_of_posDef {n : ℕ} {A : Matrix (Fin n) (Fin n) ℝ} (h : A.PosDef) : IsSPD A := by
  refine ⟨fun i j => ?_, fun x hx => ?_⟩
  · have := congrFun (congrFun h.1 j) i
    simpa [Matrix.conjTranspose_apply] using this
  · have := h.2 x hx
    rw [← quadratic_eq_sum]
    simpa using this

theorem sum_sq_eq_zero {α : Type} (f : α → K) (l : List α)
    (h : (l.map (fun c => f c ^ 2)).sum = 0) : ∀ c ∈ l, f c = 0 := by
  induction l with
  | nil => intro c hc; cases hc
  | cons a as ih =>
    have hnn : 0 ≤ (as.map (fun c => f c ^ 2)).sum :=
      List.sum_nonneg (by
        intro x hx
        obtain ⟨c, _, rfl⟩ := List.mem_map.mp hx
        exact sq_nonneg _)
    rw [List.map_cons, List.sum_cons] at h
    have h1 : f a ^ 2 = 0 := by nlinarith [sq_nonneg (f a)]
    have h2 : (as.map (fun c => f c ^ 2)).sum = 0 := by nlinarith [sq_nonneg (f a)]
    intro c hc
    rcases List.mem_cons.mp hc with rfl | hc
    · exact pow_eq_zero_iff (two_ne_zero) |>.mp h1
    · exact ih h2 c hc

/-- The matrix `ATA` is positive definite as soon as no non-zero vector is
orthogonal to all the rows `A_i`. -/
theorem normalMatrix_posDef (source target : PointCloud ℝ) (corres : CorrespondenceSet)
    (h : ∀ x : Vector6d ℝ, (∀ c ∈ corres, rowOf source target c ⬝ᵥ x = 0) → x = 0) :
    (normalMatrix source target corres).PosDef := by
  refine ⟨?_, fun x hx => ?_⟩
  · ext i j
    simp only [Matrix.conjTranspose_apply, star_trivial]
    exact normalMatrix_symm source target corres j i
  · simp only [star_trivial]
    rw [normalMatrix_quadratic]
    have hnn : 0 ≤ (corres.map (fun c => (rowOf source target c ⬝ᵥ x) ^ 2)).sum :=
      List.sum_nonneg (by
        intro y hy
        obtain ⟨c, _, rfl⟩ := List.mem_map.mp hy
        exact sq_nonneg _)
    rcases hnn.lt_or_eq with hlt | heq
    · exact hlt
    · exact absurd (h x (sum_sq_eq_zero _ _ heq.symm)) hx

theorem rowOf_rig (target : PointCloud ℝ)
    (hN : target.normals_ =
      [![1, 0, 0], ![0, 1, 0], ![0, 0, 1], ![1, 0, 0], ![1, 0, 0], ![0, 1, 0]])
    (x : Vector6d ℝ) (h : ∀ c ∈ rigPairs, rowOf rigSource target c ⬝ᵥ x = 0) : x = 0 := by
  simp only [rigPairs, List.forall_mem_cons] at h
  obtain ⟨h0, h1, h2, h3, h4, h5, -⟩ := h
  simp only [rowOf, stackedRow, PointCloud.pointAt, PointCloud.normalAt, rigSource, hN,
    List.getD_cons_succ, List.getD_cons_zero, cross_apply, Matrix.dotProduct,
    Fin.sum_univ_succ, Fin.sum_univ_zero] at h0 h1 h2 h3 h4 h5
  simp at h0 h1 h2 h3 h4 h5
  have e3 : x 3 = 0 := h0
  have e4 : x 4 = 0 := h1
  have e5 : x 5 = 0 := h2
  have e2 : x 2 = 0 := by have : -x 2 + x 3 = 0 := h3; linarith
  have e1 : x 1 = 0 := by have : x 1 + x 3 = 0 := h4; linarith
  have e0 : x 0 = 0 := by have : -x 0 + x 4 = 0 := h5; linarith
  funext i
  fin_cases i
  · exact e0
  · exact e1
  · exact e2
  · exact e3
  · exact e4
  · exact e5


theorem normalVector_eq_zero (source target : PointCloud K) (corres : CorrespondenceSet)
    (hzero : ∀ c ∈ corres, residualOf source target c = 0) :
    normalVector source target corres = 0 := by
  induction corres with
  | nil => simp [normalVector]
  | cons c cs ih =>
    rw [normalVector_cons, hzero c (List.mem_cons_self _ _), zero_smul, zero_add]
    exact ih (fun d hd => hzero d (List.mem_cons_of_mem _ hd))

theorem eq_zero_of_mulVec_eq_zero {n : ℕ} {A : Matrix (Fin n) (Fin n) K} (hA : IsSPD A)
    (v : Fin n → K) (hv : A *ᵥ v = 0) : v = 0 := by
  by_contra hne
  have := hA.2 v hne
  rw [← quadratic_eq_sum, hv, Matrix.dotProduct_zero] at this
  exact lt_irrefl _ this

theorem fromBlocks34_one : fromBlocks34 (1 : Matrix3d K) ![0, 0, 0] = 1 := by
  ext i j
  fin_cases i <;> fin_cases j <;> simp [fromBlocks34, Matrix.one_apply] <;> rfl

theorem twistToMatrix_zero : twistToMatrix Real.cos Real.sin (0 : Vector6d ℝ) = 1 := by
  have hx : rotX Real.cos Real.sin 0 = 1 := by
    ext i j
    fin_cases i <;> fin_cases j <;> simp [rotX, Matrix.one_apply] <;> rfl
  have hy : rotY Real.cos Real.sin 0 = 1 := by
    ext i j
    fin_cases i <;> fin_cases j <;> simp [rotY, Matrix.one_apply] <;> rfl
  have hz : rotZ Real.cos Real.sin 0 = 1 := by
    ext i j
    fin_cases i <;> fin_cases j <;> simp [rotZ, Matrix.one_apply] <;> rfl
  rw [twistToMatrix, toRotationMatrix_UnitX, toRotationMatrix_UnitY, toRotationMatrix_UnitZ]
  simp only [Pi.zero_apply, hx, hy, hz, mul_one]
  exact fromBlocks34_one

theorem getLast?_getD_eq_zero (l : List K) (h : ∀ a ∈ l, a = 0) : l.getLast?.getD 0 = 0 := by
  cases hl : l.getLast? with
  | none => rfl
  | some a => exact h a (List.mem_of_getLast?_eq_some hl)

/-- C8: for a target with normals and a non-empty correspondence list in range
whose accumulated matrix `ATA` is positive definite, the loop leaves
`ATA = Σ A_i A_iᵀ` and `ATb = Σ A_i r_i`, the factorisation succeeds, the
result is built from the twist `x = -llt(ATA).solve(ATb)`, this twist satisfies
`ATA x = -ATb`, and it is the unique minimiser of `Σ (A_i · x + r_i)²`. -/
theorem twist_solves_normal_equations (self : TransformationEstimationPointToPlane)
    (cos sin : ℝ → ℝ) (unspecified : Matrix6d ℝ → Vector6d ℝ → Vector6d ℝ)
    (source target : PointCloud ℝ) (corres : CorrespondenceSet)
    (hne : corres ≠ []) (hn : target.HasNormals = true) (hin : InRange source target corres)
    (hpd : (normalMatrix source target corres).PosDef) :
    accumulate source target corres =
      some (normalMatrix source target corres, normalVector source target corres) ∧
    (llt Real.sqrt (normalMatrix source target corres)).info = ComputationInfo.Success ∧
    self.ComputeTransformation Real.sqrt cos sin unspecified source target corres =
      some (twistToMatrix cos sin (solvedTwist Real.sqrt unspecified source target corres)) ∧
    normalMatrix source target corres *ᵥ solvedTwist Real.sqrt unspecified source target corres =
      -normalVector source target corres ∧
    ∀ z : Vector6d ℝ, z ≠ solvedTwist Real.sqrt unspecified source target corres →
      linearisedCost source target corres (solvedTwist Real.sqrt unspecified source target corres) <
        linearisedCost source target corres z := by
  have hspd := isSPD_of_posDef hpd
  have hsolve : normalMatrix source target corres *ᵥ solvedTwist Real.sqrt unspecified source target corres =
      -normalVector source target corres := by
    rw [solvedTwist, solveTwist, Matrix.mulVec_neg, llt_solve_spec Real.sqrt isSqrt_real _ hspd]
  refine ⟨accumulate_eq _ _ _ hn hin, llt_info_success Real.sqrt isSqrt_real _ hspd,
    pointToPlane_transformation_eq self _ cos sin _ _ _ _ hne hn hin, hsolve, fun z hz => ?_⟩
  have hd : z - solvedTwist Real.sqrt unspecified source target corres ≠ 0 := sub_ne_zero.mpr hz
  have hq := hspd.2 _ hd
  rw [← quadratic_eq_sum] at hq
  have hexp := linearisedCost_add source target corres
    (solvedTwist Real.sqrt unspecified source target corres) (z - solvedTwist Real.sqrt unspecified source target corres)
  rw [add_sub_cancel, hsolve, neg_add_cancel, Matrix.dotProduct_zero, mul_zero, add_zero] at hexp
  rw [hexp]
  linarith

theorem rig_inRange (target : PointCloud ℝ) (h : target.points_.length = 6) :
    InRange (rigSource : PointCloud ℝ) target rigPairs := by
  simp [InRange, rigSource, rigPairs, h]

/-- Witness of C8: six correspondences with independent rows `A_i`. -/
theorem twist_solves_normal_equations_witness :
    rigPairs ≠ [] ∧ (rigTargetShifted : PointCloud ℝ).HasNormals = true ∧
    InRange (rigSource : PointCloud ℝ) rigTargetShifted rigPairs ∧
    (normalMatrix (rigSource : PointCloud ℝ) rigTargetShifted rigPairs).PosDef ∧
    (accumulate (rigSource : PointCloud ℝ) rigTargetShifted rigPairs =
      some (normalMatrix rigSource rigTargetShifted rigPairs,
        normalVector rigSource rigTargetShifted rigPairs) ∧
    (llt Real.sqrt (normalMatrix (rigSource : PointCloud ℝ) rigTargetShifted rigPairs)).info =
      ComputationInfo.Success ∧
    TransformationEstimationPointToPlane.mk.ComputeTransformation Real.sqrt Real.cos Real.sin
        zeroOnFailure
        (rigSource : PointCloud ℝ) rigTargetShifted rigPairs =
      some (twistToMatrix Real.cos Real.sin
        (solvedTwist Real.sqrt zeroOnFailure rigSource rigTargetShifted rigPairs)) ∧
    normalMatrix (rigSource : PointCloud ℝ) rigTargetShifted rigPairs *ᵥ
        solvedTwist Real.sqrt zeroOnFailure rigSource rigTargetShifted rigPairs =
      -normalVector rigSource rigTargetShifted rigPairs ∧
    ∀ z : Vector6d ℝ, z ≠ solvedTwist Real.sqrt zeroOnFailure rigSource rigTargetShifted rigPairs →
      linearisedCost rigSource rigTargetShifted rigPairs
          (solvedTwist Real.sqrt zeroOnFailure rigSource rigTargetShifted rigPairs) <
        linearisedCost rigSource rigTargetShifted rigPairs z) :=
  ⟨by decide, by simp [PointCloud.HasNormals, rigTargetShifted],
    rig_inRange _ (by simp [rigTargetShifted]),
    normalMatrix_posDef _ _ _ (rowOf_rig _ (by simp [rigTargetShifted])),
    twist_solves_normal_equations TransformationEstimationPointToPlane.mk Real.cos Real.sin
      zeroOnFailure rigSource rigTargetShifted rigPairs (by decide)
      (by simp [PointCloud.HasNormals, rigTargetShifted])
      (rig_inRange _ (by simp [rigTargetShifted]))
      (normalMatrix_posDef _ _ _ (rowOf_rig _ (by simp [rigTargetShifted])))⟩

/-- C10: for a target with normals and a non-empty correspondence list in
range all of whose residuals are zero, point-to-plane ComputeRMSE returns 0
and, when `ATA` is positive definite, the factorisation succeeds, the solved
twist is 0 and ComputeTransformation returns the identity. -/
theorem zero_residual_fixed_point (self : TransformationEstimationPointToPlane)
    (unspecified : Matrix6d ℝ → Vector6d ℝ → Vector6d ℝ)
    (source target : PointCloud ℝ) (corres : CorrespondenceSet)
    (hne : corres ≠ []) (hn : target.HasNormals = true) (hin : InRange source target corres)
    (hzero : ∀ c ∈ corres, residualOf source target c = 0) :
    self.ComputeRMSE Real.sqrt source target corres = some 0 ∧
    ((normalMatrix source target corres).PosDef →
      (llt Real.sqrt (normalMatrix source target corres)).info = ComputationInfo.Success ∧
      solvedTwist Real.sqrt unspecified source target corres = 0 ∧
      self.ComputeTransformation Real.sqrt Real.cos Real.sin unspecified
        source target corres = some 1) := by
  constructor
  · unfold TransformationEstimationPointToPlane.ComputeRMSE
    have h1 : corres.isEmpty = false := by simpa using hne
    simp only [h1, hn, pointToPlane_fold source target corres 0 hn hin]
    rw [getLast?_getD_eq_zero]
    · simp
    · intro a ha
      obtain ⟨c, hc, rfl⟩ := List.mem_map.mp ha
      have := hzero c hc
      unfold residualOf at this
      rw [this, mul_zero]
  · intro hpd
    have hspd := isSPD_of_posDef hpd
    have hx : solvedTwist Real.sqrt unspecified source target corres = 0 := by
      rw [solvedTwist, solveTwist, neg_eq_zero]
      apply eq_zero_of_mulVec_eq_zero hspd
      rw [llt_solve_spec Real.sqrt isSqrt_real _ hspd, normalVector_eq_zero _ _ _ hzero]
    refine ⟨llt_info_success Real.sqrt isSqrt_real _ hspd, hx, ?_⟩
    rw [pointToPlane_transformation_eq self _ _ _ _ _ _ _ hne hn hin, hx, twistToMatrix_zero]

theorem rig_residual_zero :
    ∀ c ∈ rigPairs, residualOf (rigSource : PointCloud ℝ) rigTarget c = 0 := by
  simp only [rigPairs, List.forall_mem_cons]
  simp only [residualOf, residual, PointCloud.pointAt, PointCloud.normalAt, rigSource, rigTarget,
    List.getD_cons_succ, List.getD_cons_zero]
  simp

/-- Witness of C10: six correspondences with zero residuals and positive
definite `ATA`. -/
theorem zero_residual_fixed_point_witness :
    rigPairs ≠ [] ∧ (rigTarget : PointCloud ℝ).HasNormals = true ∧
    InRange (rigSource : PointCloud ℝ) rigTarget rigPairs ∧
    (∀ c ∈ rigPairs, residualOf (rigSource : PointCloud ℝ) rigTarget c = 0) ∧
    (normalMatrix (rigSource : PointCloud ℝ) rigTarget rigPairs).PosDef ∧
    TransformationEstimationPointToPlane.mk.ComputeRMSE Real.sqrt
      (rigSource : PointCloud ℝ) rigTarget rigPairs = some 0 ∧
    solvedTwist Real.sqrt zeroOnFailure (rigSource : PointCloud ℝ) rigTarget rigPairs = 0 ∧
    TransformationEstimationPointToPlane.mk.ComputeTransformation Real.sqrt Real.cos Real.sin
        zeroOnFailure
      (rigSource : PointCloud ℝ) rigTarget rigPairs = some 1 :=
  have h := zero_residual_fixed_point TransformationEstimationPointToPlane.mk zeroOnFailure
    (rigSource : PointCloud ℝ) rigTarget rigPairs (by decide)
    (by simp [PointCloud.HasNormals, rigTarget]) (rig_inRange _ (by simp [rigTarget]))
    rig_residual_zero
  have hpd := normalMatrix_posDef (rigSource : PointCloud ℝ) rigTarget rigPairs
    (rowOf_rig _ (by simp [rigTarget]))
  ⟨by decide, by simp [PointCloud.HasNormals, rigTarget], rig_inRange _ (by simp [rigTarget]),
    rig_residual_zero, hpd, h.1, (h.2 hpd).2.1, (h.2 hpd).2.2⟩

/-! ### The absolute-orientation solver -/

theorem columnPair_eq (source target : PointCloud K) (c : ℕ × ℕ)
    (hc : c.1 < source.points_.length ∧ c.2 < target.points_.length) :
    columnPair source target c = some (source.pointAt c.1, target.pointAt c.2) := by
  simp only [columnPair, points_getElem? _ _ hc.1, points_getElem? _ _ hc.2]
  rfl

theorem columns_mapM (source target : PointCloud K) (corres : CorrespondenceSet)
    (hin : InRange source target corres) :
    corres.mapM (columnPair source target) =
      some (corres.map (fun c => (source.pointAt c.1, target.pointAt c.2))) := by
  induction corres with
  | nil => rfl
  | cons c cs ih =>
    rw [List.mapM_cons, columnPair_eq _ _ _ hin.head, ih hin.tail]
    rfl

/-- Past its guard, point-to-point ComputeTransformation is `umeyama` applied
to the gathered columns. -/
theorem pointToPoint_transformation_eq (self : TransformationEstimationPointToPoint)
    (svd : Matrix3d K → JacobiSVD K) (source target : PointCloud K)
    (corres : CorrespondenceSet) (hne : corres ≠ []) (hin : InRange source target corres) :
    self.ComputeTransformation svd source target corres =
      some (umeyama svd (sourceColumns source corres) (targetColumns target corres)
        self.with_scaling_) := by
  unfold TransformationEstimationPointToPoint.ComputeTransformation
  have h1 : corres.isEmpty = false := by simpa using hne
  simp only [h1, columns_mapM _ _ _ hin]
  simp [sourceColumns, targetColumns, Function.comp_def]

theorem rotationBlock_fromBlocks34 (R : Matrix3d K) (t : Vector3d K) :
    rotationBlock (fromBlocks34 R t) = R := by
  ext i j
  fin_cases i <;> fin_cases j <;> rfl

theorem translationBlock_fromBlocks34 (R : Matrix3d K) (t : Vector3d K) :
    translationBlock (fromBlocks34 R t) = t := by
  ext i
  fin_cases i <;> rfl

theorem det_sq_of_orthogonal {U : Matrix3d K} (h : Uᵀ * U = 1) : U.det * U.det = 1 := by
  have := congrArg Matrix.det h
  rwa [Matrix.det_mul, Matrix.det_transpose, Matrix.det_one] at this

theorem det_reflectionSigns (dec : JacobiSVD K) :
    (Matrix.diagonal (reflectionSigns dec)).det =
      if dec.matrixU.det * dec.matrixV.det < 0 then -1 else 1 := by
  rw [Matrix.det_diagonal, reflectionSigns]
  split_ifs <;> simp [Fin.prod_univ_succ]

theorem diagonal_reflectionSigns_sq (dec : JacobiSVD K) :
    (Matrix.diagonal (reflectionSigns dec))ᵀ * Matrix.diagonal (reflectionSigns dec) = 1 := by
  rw [Matrix.diagonal_transpose, Matrix.diagonal_mul_diagonal, reflectionSigns]
  split_ifs
  · ext i j; fin_cases i <;> fin_cases j <;> simp [Matrix.diagonal, Matrix.one_apply]
  · ext i j; fin_cases i <;> fin_cases j <;> simp [Matrix.diagonal, Matrix.one_apply]

/-- The rotation `U S Vᵀ` is proper whenever `U` and `V` are orthogonal. -/
theorem corrected_rotation_proper (dec : JacobiSVD K)
    (hU : dec.matrixUᵀ * dec.matrixU = 1) (hV : dec.matrixVᵀ * dec.matrixV = 1) :
    IsProperRotation (dec.matrixU * Matrix.diagonal (reflectionSigns dec) * dec.matrixVᵀ) := by
  have hV2 : dec.matrixV * dec.matrixVᵀ = 1 := Matrix.mul_eq_one_comm.mp hV
  constructor
  · rw [Matrix.transpose_mul, Matrix.transpose_mul, Matrix.transpose_transpose]
    calc dec.matrixV * ((Matrix.diagonal (reflectionSigns dec))ᵀ * dec.matrixUᵀ) *
          (dec.matrixU * Matrix.diagonal (reflectionSigns dec) * dec.matrixVᵀ)
        = dec.matrixV * ((Matrix.diagonal (reflectionSigns dec))ᵀ * (dec.matrixUᵀ * dec.matrixU) *
            Matrix.diagonal (reflectionSigns dec)) * dec.matrixVᵀ := by
          simp only [Matrix.mul_assoc]
      _ = 1 := by
          rw [hU, Matrix.mul_one, diagonal_reflectionSigns_sq, Matrix.mul_one, hV2]
  · rw [Matrix.det_mul, Matrix.det_mul, Matrix.det_transpose, det_reflectionSigns]
    have h1 := det_sq_of_orthogonal hU
    have h2 := det_sq_of_orthogonal hV
    have h3 : (dec.matrixU.det * dec.matrixV.det) * (dec.matrixU.det * dec.matrixV.det) = 1 := by
      calc _ = (dec.matrixU.det * dec.matrixU.det) * (dec.matrixV.det * dec.matrixV.det) := by ring
        _ = 1 := by rw [h1, h2, mul_one]
    split_ifs with hneg
    · have : dec.matrixU.det * dec.matrixV.det = -1 := by nlinarith
      linear_combination (-1 : K) * this
    · have : dec.matrixU.det * dec.matrixV.det = 1 := by
        push_neg at hneg
        nlinarith
      linear_combination this

theorem mul_cancel_left_of_eq_one {A B : Matrix3d K} (h : A * B = 1) (Y : Matrix3d K) :
    A * (B * Y) = Y := by
  rw [← Matrix.mul_assoc, h, Matrix.one_mul]

/-- Conjugating the symmetric factor by `V` gives the diagonal matrix of the
singular values. -/
theorem kabsch_diagonal (R P : Matrix3d ℝ) (dec : JacobiSVD ℝ)
    (hR : IsProperRotation R) (hP : P.PosSemidef) (hsvd : IsSVDOf dec (R * P)) :
    dec.matrixVᵀ * P * dec.matrixV = Matrix.diagonal dec.singularValues := by
  obtain ⟨hU, hV, ⟨hd2, hd21, hd10⟩, hM⟩ := hsvd
  have hV2 : dec.matrixV * dec.matrixVᵀ = 1 := Matrix.mul_eq_one_comm.mp hV
  have hR2 : R * Rᵀ = 1 := Matrix.mul_eq_one_comm.mp hR.1
  have hPsymm : Pᵀ = P := by
    have := hP.1
    rwa [Matrix.IsHermitian, Matrix.conjTranspose_eq_transpose_of_trivial] at this
  have hPeq : P = Rᵀ * (dec.matrixU * Matrix.diagonal dec.singularValues * dec.matrixVᵀ) := by
    rw [← hM, mul_cancel_left_of_eq_one hR.1]
  have hA : dec.matrixVᵀ * P * dec.matrixV =
      dec.matrixVᵀ * Rᵀ * dec.matrixU * Matrix.diagonal dec.singularValues := by
    conv_lhs => rw [hPeq]
    simp only [Matrix.mul_assoc, hV, Matrix.mul_one]
  have hAsymm : (dec.matrixVᵀ * P * dec.matrixV)ᵀ = dec.matrixVᵀ * P * dec.matrixV := by
    rw [Matrix.transpose_mul, Matrix.transpose_mul, Matrix.transpose_transpose, hPsymm,
      Matrix.mul_assoc]
  have hApsd : (dec.matrixVᵀ * P * dec.matrixV).PosSemidef := by
    have := hP.conjTranspose_mul_mul_same dec.matrixV
    rwa [Matrix.conjTranspose_eq_transpose_of_trivial] at this
  have hDpsd : (Matrix.diagonal dec.singularValues).PosSemidef := by
    apply Matrix.PosSemidef.diagonal
    intro i
    fin_cases i
    · exact le_trans hd2 (le_trans hd21 hd10)
    · exact le_trans hd2 hd21
    · exact hd2
  apply hApsd.eq_of_sq_eq_sq hDpsd
  rw [pow_two, pow_two]
  nth_rewrite 1 [← hAsymm]
  rw [hA]
  simp only [Matrix.transpose_mul, Matrix.transpose_transpose, Matrix.diagonal_transpose,
    Matrix.mul_assoc]
  rw [mul_cancel_left_of_eq_one hV2, mul_cancel_left_of_eq_one hR2,
    mul_cancel_left_of_eq_one hU]

/-- The Kabsch step: if the matrix handed to the SVD is `R P` with `R` a proper
rotation and `P` symmetric positive semidefinite of rank at least two, then
the corrected rotation `U S Vᵀ` is `R`, and `Σ dᵢ Sᵢ` is the trace of `P`. -/
theorem kabsch_rotation (R P : Matrix3d ℝ) (dec : JacobiSVD ℝ)
    (hR : IsProperRotation R) (hP : P.PosSemidef) (hsvd : IsSVDOf dec (R * P))
    (hrank : 0 < dec.singularValues 1) :
    dec.matrixU * Matrix.diagonal (reflectionSigns dec) * dec.matrixVᵀ = R ∧
    dec.singularValues ⬝ᵥ reflectionSigns dec = P.trace ∧
    0 < P.trace := by
  have hdiag := kabsch_diagonal R P dec hR hP hsvd
  obtain ⟨hU, hV, ⟨hd2, hd21, hd10⟩, hM⟩ := hsvd
  have hV2 : dec.matrixV * dec.matrixVᵀ = 1 := Matrix.mul_eq_one_comm.mp hV
  have hU2 : dec.matrixU * dec.matrixUᵀ = 1 := Matrix.mul_eq_one_comm.mp hU
  have hR2 : R * Rᵀ = 1 := Matrix.mul_eq_one_comm.mp hR.1
  have hd0 : 0 < dec.singularValues 0 := lt_of_lt_of_le hrank hd10
  set W : Matrix3d ℝ := dec.matrixVᵀ * Rᵀ * dec.matrixU with hW
  have hWD : W * Matrix.diagonal dec.singularValues = Matrix.diagonal dec.singularValues := by
    have hPeq : P = Rᵀ * (dec.matrixU * Matrix.diagonal dec.singularValues * dec.matrixVᵀ) := by
      rw [← hM, mul_cancel_left_of_eq_one hR.1]
    have h1 : W * Matrix.diagonal dec.singularValues = dec.matrixVᵀ * P * dec.matrixV := by
      rw [hW]
      conv_rhs => rw [hPeq]
      simp only [Matrix.mul_assoc, hV, Matrix.mul_one]
    rw [h1, hdiag]
  have hWorth : Wᵀ * W = 1 := by
    rw [hW]
    simp only [Matrix.transpose_mul, Matrix.transpose_transpose, Matrix.mul_assoc]
    rw [mul_cancel_left_of_eq_one hV2, mul_cancel_left_of_eq_one hR2, hU]
  have hent : ∀ i j, W i j * dec.singularValues j =
      Matrix.diagonal dec.singularValues i j := by
    intro i j
    rw [← Matrix.mul_diagonal, hWD]
  have w00 : W 0 0 = 1 := by
    have := hent 0 0
    simp only [Matrix.diagonal_apply_eq] at this
    field_simp at this
    linarith
  have w10 : W 1 0 = 0 := by
    have := hent 1 0
    simpa [hd0.ne'] using this
  have w20 : W 2 0 = 0 := by
    have := hent 2 0
    simpa [hd0.ne'] using this
  have w01 : W 0 1 = 0 := by
    have := hent 0 1
    simpa [hrank.ne'] using this
  have w11 : W 1 1 = 1 := by
    have := hent 1 1
    simp only [Matrix.diagonal_apply_eq] at this
    field_simp at this
    linarith
  have w21 : W 2 1 = 0 := by
    have := hent 2 1
    simpa [hrank.ne'] using this
  have o02 := congrFun (congrFun hWorth 0) 2
  have o12 := congrFun (congrFun hWorth 1) 2
  have o22 := congrFun (congrFun hWorth 2) 2
  simp only [Matrix.mul_apply, Matrix.transpose_apply, Fin.sum_univ_three, w00, w10, w20, w01,
    w11, w21, Matrix.one_apply] at o02 o12 o22
  have w02 : W 0 2 = 0 := by simpa using o02
  have w12 : W 1 2 = 0 := by simpa using o12
  have w22 : W 2 2 * W 2 2 = 1 := by simpa [w02, w12] using o22
  have hdetW : W.det = W 2 2 := by
    rw [Matrix.det_fin_three]
    simp [w00, w10, w20, w01, w11, w21, w02, w12]
  have hdetW2 : W.det = dec.matrixU.det * dec.matrixV.det := by
    rw [hW, Matrix.det_mul, Matrix.det_mul, Matrix.det_transpose, Matrix.det_transpose, hR.2]
    ring
  have hw : W 2 2 = dec.matrixU.det * dec.matrixV.det := by rw [← hdetW, hdetW2]
  have hS : reflectionSigns dec = ![1, 1, W 2 2] := by
    rw [reflectionSigns, ← hw]
    split_ifs with hneg
    · have : W 2 2 = -1 := by nlinarith
      rw [this]
    · have : W 2 2 = 1 := by
        push_neg at hneg
        nlinarith
      rw [this]
  have hWdiag : Matrix.diagonal (reflectionSigns dec) = W := by
    rw [hS]
    ext i j
    fin_cases i <;> fin_cases j <;>
      simp [Matrix.diagonal, w00, w10, w20, w01, w11, w21, w02, w12]
  have hWsymm : Wᵀ = W := by
    rw [← hWdiag, Matrix.diagonal_transpose]
  have htr : P.trace = dec.singularValues 0 + dec.singularValues 1 + dec.singularValues 2 := by
    have h1 : P.trace = (dec.matrixVᵀ * P * dec.matrixV).trace := by
      rw [Matrix.trace_mul_comm, ← Matrix.mul_assoc, hV2, Matrix.one_mul]
    rw [h1, hdiag, Matrix.trace_diagonal, Fin.sum_univ_three]
  refine ⟨?_, ?_, ?_⟩
  · rw [hWdiag]
    conv_lhs => rw [← hWsymm, hW]
    simp only [Matrix.transpose_mul, Matrix.transpose_transpose, Matrix.mul_assoc]
    rw [mul_cancel_left_of_eq_one hU2, hV2, Matrix.mul_one]
  · have h22 := hent 2 2
    simp only [Matrix.diagonal_apply_eq] at h22
    rw [htr, hS]
    simp only [Matrix.dotProduct, Fin.sum_univ_three]
    simp
    linarith
  · rw [htr]
    linarith

theorem sum_map_similarity (s : K) (R : Matrix3d K) (t : Vector3d K) (l : List (Vector3d K)) :
    (l.map (similarity s R t)).sum = s • (R *ᵥ l.sum) + (l.length : K) • t := by
  induction l with
  | nil => simp
  | cons a as ih =>
    simp only [List.map_cons, List.sum_cons, ih, similarity, Matrix.mulVec_add, smul_add,
      List.length_cons, Nat.cast_add, Nat.cast_one, add_smul, one_smul]
    abel

theorem centroid_map_similarity (s : K) (R : Matrix3d K) (t : Vector3d K)
    (l : List (Vector3d K)) (hl : l ≠ []) :
    centroid (l.map (similarity s R t)) = similarity s R t (centroid l) := by
  have hn : (l.length : K) ≠ 0 := by
    simpa using hl
  simp only [centroid, List.length_map, sum_map_similarity, similarity, smul_add,
    Matrix.mulVec_smul]
  rw [smul_smul, smul_smul, smul_smul, one_div, inv_mul_cancel₀ hn, one_smul, mul_comm]

theorem demean_map_similarity (s : K) (R : Matrix3d K) (t : Vector3d K)
    (l : List (Vector3d K)) (hl : l ≠ []) :
    demean (l.map (similarity s R t)) = (demean l).map (fun x => s • (R *ᵥ x)) := by
  simp only [demean, centroid_map_similarity s R t l hl, List.map_map]
  apply List.map_congr_left
  intro p _
  simp only [Function.comp_apply, similarity, Matrix.mulVec_sub, smul_sub]
  abel

theorem zipWith_map_map {α β γ δ : Type} (f : β → γ → δ) (g : α → β) (h : α → γ)
    (l : List α) : List.zipWith f (l.map g) (l.map h) = l.map (fun a => f (g a) (h a)) := by
  induction l with
  | nil => rfl
  | cons a as ih => simp [ih]

theorem vecMulVec_smul_mulVec (s : K) (R : Matrix3d K) (x y : Vector3d K) :
    Matrix.vecMulVec (s • (R *ᵥ x)) y = s • (R * Matrix.vecMulVec x y) := by
  ext i j
  simp only [Matrix.vecMulVec_apply, Pi.smul_apply, smul_eq_mul, Matrix.mulVec,
    Matrix.dotProduct, Matrix.smul_apply, Matrix.mul_apply, Finset.sum_mul, Finset.mul_sum]
  exact Finset.sum_congr rfl (fun k _ => by ring)

theorem sum_map_smul_mul (s : K) (R : Matrix3d K) (l : List (Matrix3d K)) :
    (l.map (fun M => s • (R * M))).sum = s • (R * l.sum) := by
  induction l with
  | nil => simp
  | cons a as ih => simp [ih, Matrix.mul_add, smul_add]

/-- The cross-covariance of a cloud against its image under a similarity is
the rotation times a multiple of the scatter matrix. -/
theorem crossCovariance_similarity (s : K) (R : Matrix3d K) (t : Vector3d K)
    (l : List (Vector3d K)) (hl : l ≠ []) :
    crossCovariance l (l.map (similarity s R t)) = R * (s • scatter l) := by
  rw [crossCovariance, demean_map_similarity s R t l hl]
  have : List.zipWith (fun d x => Matrix.vecMulVec d x)
      ((demean l).map (fun x => s • (R *ᵥ x))) (demean l) =
      ((demean l).map (fun x => Matrix.vecMulVec x x)).map (fun M => s • (R * M)) := by
    have h := zipWith_map_map (fun d x => Matrix.vecMulVec d x)
      (fun x : Vector3d K => s • (R *ᵥ x)) (fun x => x) (demean l)
    rw [List.map_id'] at h
    rw [h, List.map_map]
    apply List.map_congr_left
    intro x _
    exact vecMulVec_smul_mulVec s R x x
  rw [this, sum_map_smul_mul, scatter]
  simp only [Matrix.mul_smul, smul_smul]
  rw [mul_comm]

theorem gram_quadratic {m : ℕ} (l : List (Fin m → K)) (v : Fin m → K) :
    v ⬝ᵥ ((l.map (fun a => Matrix.vecMulVec a a)).sum *ᵥ v) =
      (l.map (fun a => (a ⬝ᵥ v) ^ 2)).sum := by
  induction l with
  | nil => simp
  | cons a as ih =>
    rw [List.map_cons, List.sum_cons, Matrix.add_mulVec, Matrix.dotProduct_add, ih,
      vecMulVec_self_mulVec, Matrix.dotProduct_smul, Matrix.dotProduct_comm v]
    simp only [List.map_cons, List.sum_cons, smul_eq_mul]
    ring

theorem gram_transpose {m : ℕ} (l : List (Fin m → K)) :
    ((l.map (fun a => Matrix.vecMulVec a a)).sum)ᵀ = (l.map (fun a => Matrix.vecMulVec a a)).sum := by
  induction l with
  | nil => simp
  | cons a as ih =>
    rw [List.map_cons, List.sum_cons, Matrix.transpose_add, ih]
    congr 1
    ext i j
    simp [Matrix.vecMulVec_apply, mul_comm]

theorem gram_trace {m : ℕ} (l : List (Fin m → K)) :
    ((l.map (fun a => Matrix.vecMulVec a a)).sum).trace = (l.map (fun a => a ⬝ᵥ a)).sum := by
  induction l with
  | nil => simp
  | cons a as ih =>
    rw [List.map_cons, List.sum_cons, Matrix.trace_add, ih]
    simp [Matrix.trace, Matrix.vecMulVec_apply, Matrix.dotProduct]

theorem sum_sq_nonneg {α : Type} (f : α → K) (l : List α) :
    0 ≤ (l.map (fun c => f c ^ 2)).sum :=
  List.sum_nonneg (by
    intro x hx
    obtain ⟨c, _, rfl⟩ := List.mem_map.mp hx
    exact sq_nonneg _)

theorem scatter_quadratic (l : List (Vector3d K)) (v : Vector3d K) :
    v ⬝ᵥ (scatter l *ᵥ v) =
      (1 / (l.length : K)) * ((demean l).map (fun x => (x ⬝ᵥ v) ^ 2)).sum := by
  rw [scatter, Matrix.smul_mulVec_assoc, Matrix.dotProduct_smul, gram_quadratic, smul_eq_mul]

theorem scatter_trace (l : List (Vector3d K)) : (scatter l).trace = variance l := by
  rw [scatter, Matrix.trace_smul, gram_trace, variance, smul_eq_mul]
  rfl

theorem scaled_scatter_posSemidef (s : ℝ) (hs : 0 < s) (l : List (Vector3d ℝ)) :
    (s • scatter l).PosSemidef := by
  refine ⟨?_, fun v => ?_⟩
  · rw [Matrix.IsHermitian, Matrix.conjTranspose_eq_transpose_of_trivial, Matrix.transpose_smul,
      scatter, Matrix.transpose_smul, gram_transpose]
  · simp only [star_trivial]
    rw [Matrix.smul_mulVec_assoc, Matrix.dotProduct_smul, scatter_quadratic, smul_eq_mul]
    have h1 := sum_sq_nonneg (fun x : Vector3d ℝ => x ⬝ᵥ v) (demean l)
    have h2 : (0 : ℝ) ≤ 1 / (l.length : ℝ) := by positivity
    positivity

theorem cross_eq_zero_of_orthogonal_columns (V : Matrix3d K) (hV2 : V * Vᵀ = 1)
    (u w : Vector3d K)
    (hu1 : u ⬝ᵥ (fun i => V i 1) = 0) (hu2 : u ⬝ᵥ (fun i => V i 2) = 0)
    (hw1 : w ⬝ᵥ (fun i => V i 1) = 0) (hw2 : w ⬝ᵥ (fun i => V i 2) = 0) :
    u ×₃ w = 0 := by
  have key : ∀ z : Vector3d K, z ⬝ᵥ (fun i => V i 1) = 0 → z ⬝ᵥ (fun i => V i 2) = 0 →
      z = (z ⬝ᵥ (fun i => V i 0)) • (fun i => V i 0) := by
    intro z hz1 hz2
    have h := congrArg (fun M : Matrix3d K => M *ᵥ z) hV2
    simp only [Matrix.one_mulVec] at h
    simp only [Matrix.dotProduct, Fin.sum_univ_three] at hz1 hz2
    funext i
    have hi := congrFun h i
    simp only [Matrix.mulVec, Matrix.dotProduct, Matrix.mul_apply, Matrix.transpose_apply,
      Fin.sum_univ_three, Pi.smul_apply, smul_eq_mul] at hi ⊢
    linear_combination (-1 : K) * hi + V i 1 * hz1 + V i 2 * hz2
  rw [key u hu1 hu2, key w hw1 hw2]
  simp [cross_self]

/-- A cloud that is not collinear makes the second singular value positive. -/
theorem second_singular_value_pos (s : K) (hs : 0 < s) (l : List (Vector3d K))
    (hl : NotCollinear l) (V : Matrix3d K) (hV : Vᵀ * V = 1) (d : Vector3d K)
    (hd : 0 ≤ d 2 ∧ d 2 ≤ d 1)
    (hdiag : Vᵀ * (s • scatter l) * V = Matrix.diagonal d) : 0 < d 1 := by
  by_contra hnot
  have hd1 : d 1 = 0 := le_antisymm (not_lt.mp hnot) (le_trans hd.1 hd.2)
  have hd2 : d 2 = 0 := le_antisymm (by rw [← hd1]; exact hd.2) hd.1
  obtain ⟨a, ha, b, hb, c, hc, hcross⟩ := hl
  have hne : l ≠ [] := List.ne_nil_of_mem ha
  have hn : (0 : K) < (l.length : K) := by
    have : 0 < l.length := List.length_pos.mpr hne
    exact_mod_cast this
  have hV2 : V * Vᵀ = 1 := Matrix.mul_eq_one_comm.mp hV
  have hcol : ∀ k : Fin 3, d k = 0 → ∀ x ∈ demean l, x ⬝ᵥ (fun i => V i k) = 0 := by
    intro k hk
    have h1 : (fun i => V i k) ⬝ᵥ ((s • scatter l) *ᵥ (fun i => V i k)) = d k := by
      have := congrFun (congrFun hdiag k) k
      rw [Matrix.diagonal_apply_eq] at this
      rw [← this]
      simp only [Matrix.dotProduct, Matrix.mulVec, Matrix.mul_apply, Matrix.transpose_apply,
        Finset.sum_mul, Finset.mul_sum, mul_assoc]
      rw [Finset.sum_comm]
    rw [Matrix.smul_mulVec_assoc, Matrix.dotProduct_smul, scatter_quadratic, hk,
      smul_eq_mul] at h1
    have h2 : ((demean l).map (fun x => (x ⬝ᵥ (fun i => V i k)) ^ 2)).sum = 0 := by
      have h3 : s * (1 / (l.length : K)) ≠ 0 := by positivity
      rw [← mul_assoc] at h1
      exact (mul_eq_zero.mp h1).resolve_left h3
    exact sum_sq_eq_zero _ _ h2
  have hmem : ∀ p ∈ l, p - centroid l ∈ demean l := fun p hp =>
    List.mem_map.mpr ⟨p, hp, rfl⟩
  have hdiff : ∀ k : Fin 3, d k = 0 → ∀ p ∈ l, ∀ q ∈ l, (q - p) ⬝ᵥ (fun i => V i k) = 0 := by
    intro k hk p hp q hq
    have e : q - p = (q - centroid l) - (p - centroid l) := by abel
    rw [e, Matrix.sub_dotProduct, hcol k hk _ (hmem q hq), hcol k hk _ (hmem p hp), sub_zero]
  exact hcross (cross_eq_zero_of_orthogonal_columns V hV2 _ _
    (hdiff 1 hd1 a ha b hb) (hdiff 2 hd2 a ha b hb)
    (hdiff 1 hd1 a ha c hc) (hdiff 2 hd2 a ha c hc))

/-- What `umeyama` computes on a cloud and its image under a similarity
`p ↦ s R p + t`: the corrected rotation is `R`, the scale estimate is `s` and
the target centroid is the image of the source centroid. -/
theorem umeyama_similarity_parts (svd : Matrix3d ℝ → JacobiSVD ℝ) (s : ℝ) (hs : 0 < s)
    (R : Matrix3d ℝ) (hR : IsProperRotation R) (t : Vector3d ℝ) (l : List (Vector3d ℝ))
    (hl : NotCollinear l)
    (hsvd : IsSVDOf (svd (crossCovariance l (l.map (similarity s R t))))
      (crossCovariance l (l.map (similarity s R t)))) :
    (svd (crossCovariance l (l.map (similarity s R t)))).matrixU *
        Matrix.diagonal (reflectionSigns (svd (crossCovariance l (l.map (similarity s R t))))) *
        (svd (crossCovariance l (l.map (similarity s R t)))).matrixVᵀ = R ∧
    (svd (crossCovariance l (l.map (similarity s R t)))).singularValues ⬝ᵥ
        reflectionSigns (svd (crossCovariance l (l.map (similarity s R t)))) / variance l = s ∧
    centroid (l.map (similarity s R t)) = s • (R *ᵥ centroid l) + t := by
  have hne : l ≠ [] := by
    obtain ⟨a, ha, -⟩ := hl
    exact List.ne_nil_of_mem ha
  have hcov := crossCovariance_similarity s R t l hne
  rw [hcov] at hsvd ⊢
  have hP := scaled_scatter_posSemidef s hs l
  have hdiag := kabsch_diagonal R _ _ hR hP hsvd
  have hrank := second_singular_value_pos s hs l hl _ hsvd.2.1 _
    ⟨hsvd.2.2.1.1, hsvd.2.2.1.2.1⟩ hdiag
  obtain ⟨hrot, htr, hpos⟩ := kabsch_rotation R _ _ hR hP hsvd hrank
  rw [Matrix.trace_smul, scatter_trace, smul_eq_mul] at htr hpos
  have hvar : variance l ≠ 0 := by
    rintro h0
    rw [h0, mul_zero] at hpos
    exact lt_irrefl _ hpos
  refine ⟨hrot, ?_, ?_⟩
  · rw [htr]
    field_simp
  · rw [centroid_map_similarity s R t l hne, similarity]

/-! ### Point-to-point alignment -/

theorem map_range_getD {α : Type} (l : List α) (d : α) :
    (List.range l.length).map (fun i => l.getD i d) = l := by
  apply List.ext_getElem
  · simp
  · intro i h1 h2
    simp [List.getD, List.getElem?_eq_getElem h2]

theorem sourceColumns_identityPairing (source : PointCloud K) :
    sourceColumns source (identityPairing source.points_.length) = source.points_ := by
  simp only [sourceColumns, identityPairing, List.map_map, PointCloud.pointAt]
  exact map_range_getD source.points_ 0

theorem targetColumns_identityPairing (target : PointCloud K) :
    targetColumns target (identityPairing target.points_.length) = target.points_ := by
  simp only [targetColumns, identityPairing, List.map_map, PointCloud.pointAt]
  exact map_range_getD target.points_ 0

theorem inRange_identityPairing (source target : PointCloud K) (n : ℕ)
    (h1 : source.points_.length = n) (h2 : target.points_.length = n) :
    InRange source target (identityPairing n) := by
  intro c hc
  simp only [identityPairing, List.mem_map, List.mem_range] at hc
  obtain ⟨i, hi, rfl⟩ := hc
  exact ⟨by rw [h1]; exact hi, by rw [h2]; exact hi⟩

theorem identityPairing_ne_nil (n : ℕ) (h : 0 < n) : identityPairing n ≠ [] := by
  cases n with
  | zero => exact absurd h (lt_irrefl _)
  | succ m => simp [identityPairing, List.range_succ]

theorem NotCollinear.length_pos {l : List (Vector3d K)} (h : NotCollinear l) : 0 < l.length := by
  obtain ⟨a, ha, -⟩ := h
  exact List.length_pos.mpr (List.ne_nil_of_mem ha)

/-- C6: for a non-empty correspondence set with indices in range, when the
singular value decomposition handed back by `svd` has orthogonal factors, the
top-left 3x3 block of the matrix returned by point-to-point
ComputeTransformation with `with_scaling = false` is orthogonal with
determinant `+1`.  (Non-degeneracy of the set is not needed.) -/
theorem rotation_validity (svd : Matrix3d K → JacobiSVD K) (source target : PointCloud K)
    (corres : CorrespondenceSet) (hne : corres ≠ []) (hin : InRange source target corres)
    (hsvd : IsSVDOf
      (svd (crossCovariance (sourceColumns source corres) (targetColumns target corres)))
      (crossCovariance (sourceColumns source corres) (targetColumns target corres))) :
    ∃ M : Matrix4d K,
      (TransformationEstimationPointToPoint.mk false).ComputeTransformation svd
        source target corres = some M ∧
      (rotationBlock M)ᵀ * rotationBlock M = 1 ∧ (rotationBlock M).det = 1 := by
  refine ⟨_, pointToPoint_transformation_eq _ svd source target corres hne hin, ?_⟩
  simp only [umeyama, Bool.false_eq_true, if_false, one_smul, rotationBlock_fromBlocks34]
  exact corrected_rotation_proper _ hsvd.1 hsvd.2.1

/-- The identity pairing of a cloud with its image under a similarity. -/
theorem pointToPoint_similarity (self : TransformationEstimationPointToPoint)
    (svd : Matrix3d ℝ → JacobiSVD ℝ) (source target : PointCloud ℝ) (s : ℝ)
    (R : Matrix3d ℝ) (t : Vector3d ℝ) (hnc : NotCollinear source.points_)
    (ht : target.points_ = source.points_.map (fun p => s • (R *ᵥ p) + t)) :
    self.ComputeTransformation svd source target (identityPairing source.points_.length) =
      some (umeyama svd source.points_ (source.points_.map (similarity s R t))
        self.with_scaling_) := by
  have hlen : target.points_.length = source.points_.length := by rw [ht, List.length_map]
  rw [pointToPoint_transformation_eq self svd source target _
    (identityPairing_ne_nil _ hnc.length_pos) (inRange_identityPairing _ _ _ rfl hlen),
    sourceColumns_identityPairing]
  conv_lhs => rw [← hlen, targetColumns_identityPairing, ht]
  rfl

/-- C7: for a non-collinear source cloud, `s > 0`, a proper rotation `R` and a
translation `t`, if target point `i` is `s R (source point i) + t` and the
correspondences are the identity pairing, then with `with_scaling = true` the
result has top-left block `s R` and translation `t`; with
`with_scaling = false` on the same input the top-left block is orthogonal with
determinant `1`. -/
theorem scale_recovery (svd : Matrix3d ℝ → JacobiSVD ℝ) (source target : PointCloud ℝ)
    (s : ℝ) (hs : 0 < s) (R : Matrix3d ℝ) (hR : IsProperRotation R) (t : Vector3d ℝ)
    (hnc : NotCollinear source.points_)
    (ht : target.points_ = source.points_.map (fun p => s • (R *ᵥ p) + t))
    (hsvd : IsSVDOf (svd (crossCovariance source.points_ target.points_))
      (crossCovariance source.points_ target.points_)) :
    (TransformationEstimationPointToPoint.mk true).ComputeTransformation svd source target
        (identityPairing source.points_.length) = some (fromBlocks34 (s • R) t) ∧
    ∃ M : Matrix4d ℝ,
      (TransformationEstimationPointToPoint.mk false).ComputeTransformation svd source target
        (identityPairing source.points_.length) = some M ∧
      (rotationBlock M)ᵀ * rotationBlock M = 1 ∧ (rotationBlock M).det = 1 := by
  have ht2 : target.points_ = source.points_.map (similarity s R t) := ht
  rw [ht2] at hsvd
  obtain ⟨hrot, hscale, hcen⟩ :=
    umeyama_similarity_parts svd s hs R hR t source.points_ hnc hsvd
  constructor
  · rw [pointToPoint_similarity _ svd source target s R t hnc ht]
    simp only [umeyama, if_true, hrot, hscale, hcen]
    rw [add_sub_cancel_left]
  · refine ⟨_, pointToPoint_similarity _ svd source target s R t hnc ht, ?_⟩
    simp only [umeyama, Bool.false_eq_true, if_false, one_smul, rotationBlock_fromBlocks34]
    exact corrected_rotation_proper _ hsvd.1 hsvd.2.1

/-- C5: for a non-collinear source cloud, a proper rotation `R` and a
translation `t`, if target point `i` is `R (source point i) + t` and the
correspondences are the identity pairing, then point-to-point
ComputeTransformation with `with_scaling = false` returns the matrix with `R`
in the top-left block and `t` in the top-right block. -/
theorem perfect_alignment_recovery (svd : Matrix3d ℝ → JacobiSVD ℝ)
    (source target : PointCloud ℝ) (R : Matrix3d ℝ) (hR : IsProperRotation R)
    (t : Vector3d ℝ) (hnc : NotCollinear source.points_)
    (ht : target.points_ = source.points_.map (fun p => R *ᵥ p + t))
    (hsvd : IsSVDOf (svd (crossCovariance source.points_ target.points_))
      (crossCovariance source.points_ target.points_)) :
    (TransformationEstimationPointToPoint.mk false).ComputeTransformation svd source target
        (identityPairing source.points_.length) = some (fromBlocks34 R t) := by
  have ht1 : target.points_ = source.points_.map (fun p => (1 : ℝ) • (R *ᵥ p) + t) := by
    rw [ht]
    simp only [one_smul]
  have ht2 : target.points_ = source.points_.map (similarity 1 R t) := ht1
  rw [ht2] at hsvd
  obtain ⟨hrot, -, hcen⟩ :=
    umeyama_similarity_parts svd 1 one_pos R hR t source.points_ hnc hsvd
  rw [pointToPoint_similarity _ svd source target 1 R t hnc ht1]
  simp only [umeyama, Bool.false_eq_true, if_false, hrot, hcen, one_smul]
  rw [add_sub_cancel_left]

/-! ### Concrete point-to-point inputs -/

theorem mul3_apply (A B : Matrix3d K) (i j : Fin 3) :
    (A * B) i j = A i 0 * B 0 j + A i 1 * B 1 j + A i 2 * B 2 j := by
  simp [Matrix.mul_apply, Fin.sum_univ_three]

theorem quad_centroid : centroid (quadSource : PointCloud K).points_ = 0 := by
  simp only [centroid, quadSource, List.sum_cons, List.sum_nil]
  ext i
  fin_cases i <;> simp

theorem quadTarget_centroid : centroid (quadTarget : PointCloud K).points_ = ![1, 2, 3] := by
  simp only [centroid, quadTarget, List.sum_cons, List.sum_nil, List.length_cons,
    List.length_nil]
  ext i
  fin_cases i <;> simp <;> norm_num

theorem quadTargetScaled_centroid :
    centroid (quadTargetScaled : PointCloud K).points_ = ![1, 2, 3] := by
  simp only [centroid, quadTargetScaled, List.sum_cons, List.sum_nil, List.length_cons,
    List.length_nil]
  ext i
  fin_cases i <;> simp <;> norm_num

theorem quad_crossCovariance :
    crossCovariance (quadSource : PointCloud K).points_ (quadTarget : PointCloud K).points_ =
      !![0, -(1 / 2), 0; 1 / 2, 0, 0; 0, 0, 0] := by
  simp only [crossCovariance, demean, quad_centroid, quadTarget_centroid]
  simp only [quadSource, quadTarget, List.map_cons, List.map_nil, List.zipWith_cons_cons,
    List.zipWith_nil_right, List.sum_cons, List.sum_nil, List.length_cons, List.length_nil]
  ext i j
  fin_cases i <;> fin_cases j <;> simp [Matrix.vecMulVec_apply] <;> first | rfl | norm_num

theorem quadScaled_crossCovariance :
    crossCovariance (quadSource : PointCloud K).points_
        (quadTargetScaled : PointCloud K).points_ =
      !![0, -1, 0; 1, 0, 0; 0, 0, 0] := by
  simp only [crossCovariance, demean, quad_centroid, quadTargetScaled_centroid]
  simp only [quadSource, quadTargetScaled, List.map_cons, List.map_nil, List.zipWith_cons_cons,
    List.zipWith_nil_right, List.sum_cons, List.sum_nil, List.length_cons, List.length_nil]
  ext i j
  fin_cases i <;> fin_cases j <;> simp [Matrix.vecMulVec_apply] <;> first | rfl | norm_num

theorem quarterTurn_orthogonal : (quarterTurn : Matrix3d K)ᵀ * quarterTurn = 1 := by
  ext i j
  simp only [mul3_apply, Matrix.transpose_apply, Matrix.one_apply]
  fin_cases i <;> fin_cases j <;> simp [quarterTurn, Matrix.vecHead, Matrix.vecTail]

theorem quarterTurn_proper : IsProperRotation (quarterTurn : Matrix3d K) := by
  refine ⟨quarterTurn_orthogonal, ?_⟩
  simp [Matrix.det_fin_three, quarterTurn]

theorem quadSVD_isSVD (d : K) (hd : 0 ≤ d) :
    IsSVDOf (quadSVD d (!![0, -d, 0; d, 0, 0; 0, 0, 0] : Matrix3d K))
      !![0, -d, 0; d, 0, 0; 0, 0, 0] := by
  refine ⟨quarterTurn_orthogonal, ?_, ⟨?_, ?_, ?_⟩, ?_⟩
  · simp [quadSVD]
  · simp [quadSVD]
  · simpa [quadSVD] using hd
  · simp [quadSVD]
  · ext i j
    simp only [mul3_apply, quadSVD, Matrix.transpose_apply, Matrix.diagonal_apply,
      Matrix.one_apply]
    fin_cases i <;> fin_cases j <;> simp [quarterTurn, Matrix.vecHead, Matrix.vecTail]

theorem quad_notCollinear : NotCollinear (quadSource : PointCloud K).points_ := by
  refine ⟨![1, 0, 0], by simp [quadSource], ![-1, 0, 0], by simp [quadSource],
    ![0, 1, 0], by simp [quadSource], ?_⟩
  intro h
  have := congrFun h 2
  simp [cross_apply] at this
  norm_num at this


theorem quadTarget_eq :
    (quadTarget : PointCloud K).points_ =
      (quadSource : PointCloud K).points_.map (fun p => quarterTurn *ᵥ p + ![1, 2, 3]) := by
  simp only [quadTarget, quadSource, List.map_cons, List.map_nil, List.cons.injEq, and_true]
  refine ⟨?_, ?_, ?_, ?_⟩ <;>
    (ext i
     fin_cases i <;> simp [quarterTurn, Matrix.mulVec, Matrix.dotProduct, Fin.sum_univ_three] <;>
      norm_num)

theorem quadTargetScaled_eq :
    (quadTargetScaled : PointCloud K).points_ =
      (quadSource : PointCloud K).points_.map
        (fun p => (2 : K) • (quarterTurn *ᵥ p) + ![1, 2, 3]) := by
  simp only [quadTargetScaled, quadSource, List.map_cons, List.map_nil, List.cons.injEq,
    and_true]
  refine ⟨?_, ?_, ?_, ?_⟩ <;>
    (ext i
     fin_cases i <;> simp [quarterTurn, Matrix.mulVec, Matrix.dotProduct, Fin.sum_univ_three] <;>
      norm_num)

/-- Witness of C6: four points and their image under a quarter turn about the
Z axis followed by a translation, with an exact decomposition. -/
theorem rotation_validity_witness :
    identityPairing 4 ≠ [] ∧
    InRange (quadSource : PointCloud ℚ) quadTarget (identityPairing 4) ∧
    IsSVDOf
      (quadSVD (1 / 2 : ℚ) (crossCovariance (sourceColumns quadSource (identityPairing 4))
        (targetColumns quadTarget (identityPairing 4))))
      (crossCovariance (sourceColumns quadSource (identityPairing 4))
        (targetColumns quadTarget (identityPairing 4))) ∧
    ∃ M : Matrix4d ℚ,
      (TransformationEstimationPointToPoint.mk false).ComputeTransformation (quadSVD (1 / 2))
        quadSource quadTarget (identityPairing 4) = some M ∧
      (rotationBlock M)ᵀ * rotationBlock M = 1 ∧ (rotationBlock M).det = 1 :=
  have hsvd : IsSVDOf
      (quadSVD (1 / 2 : ℚ) (crossCovariance (sourceColumns quadSource (identityPairing 4))
        (targetColumns quadTarget (identityPairing 4))))
      (crossCovariance (sourceColumns quadSource (identityPairing 4))
        (targetColumns quadTarget (identityPairing 4))) := by
    rw [show sourceColumns (quadSource : PointCloud ℚ) (identityPairing 4) = quadSource.points_
        from sourceColumns_identityPairing quadSource,
      show targetColumns (quadTarget : PointCloud ℚ) (identityPairing 4) = quadTarget.points_
        from targetColumns_identityPairing quadTarget, quad_crossCovariance]
    have := quadSVD_isSVD (1 / 2 : ℚ) (by norm_num)
    simpa using this
  ⟨by decide, inRange_identityPairing _ _ 4 rfl rfl, hsvd,
    rotation_validity (quadSVD (1 / 2)) (quadSource : PointCloud ℚ) quadTarget
      (identityPairing 4) (by decide) (inRange_identityPairing _ _ 4 rfl rfl) hsvd⟩

/-- Witness of C7: four points and their image under the similarity with
scale 2, a quarter turn about the Z axis and translation (1,2,3). -/
theorem scale_recovery_witness :
    (0 : ℝ) < 2 ∧ IsProperRotation (quarterTurn : Matrix3d ℝ) ∧
    NotCollinear (quadSource : PointCloud ℝ).points_ ∧
    (quadTargetScaled : PointCloud ℝ).points_ =
      (quadSource : PointCloud ℝ).points_.map
        (fun p => (2 : ℝ) • (quarterTurn *ᵥ p) + ![1, 2, 3]) ∧
    IsSVDOf (quadSVD (1 : ℝ) (crossCovariance (quadSource : PointCloud ℝ).points_
        (quadTargetScaled : PointCloud ℝ).points_))
      (crossCovariance (quadSource : PointCloud ℝ).points_
        (quadTargetScaled : PointCloud ℝ).points_) ∧
    ((TransformationEstimationPointToPoint.mk true).ComputeTransformation (quadSVD (1 : ℝ))
        quadSource quadTargetScaled (identityPairing (quadSource : PointCloud ℝ).points_.length) =
      some (fromBlocks34 ((2 : ℝ) • quarterTurn) ![1, 2, 3]) ∧
    ∃ M : Matrix4d ℝ,
      (TransformationEstimationPointToPoint.mk false).ComputeTransformation (quadSVD (1 : ℝ))
        quadSource quadTargetScaled
        (identityPairing (quadSource : PointCloud ℝ).points_.length) = some M ∧
      (rotationBlock M)ᵀ * rotationBlock M = 1 ∧ (rotationBlock M).det = 1) :=
  have hsvd : IsSVDOf (quadSVD (1 : ℝ) (crossCovariance (quadSource : PointCloud ℝ).points_
        (quadTargetScaled : PointCloud ℝ).points_))
      (crossCovariance (quadSource : PointCloud ℝ).points_
        (quadTargetScaled : PointCloud ℝ).points_) := by
    rw [quadScaled_crossCovariance]
    exact quadSVD_isSVD (1 : ℝ) zero_le_one
  ⟨two_pos, quarterTurn_proper, quad_notCollinear, quadTargetScaled_eq, hsvd,
    scale_recovery (quadSVD (1 : ℝ)) quadSource quadTargetScaled 2 two_pos quarterTurn
      quarterTurn_proper ![1, 2, 3] quad_notCollinear quadTargetScaled_eq hsvd⟩

theorem scenario_centroid :
    centroid (scenarioSource : PointCloud K).points_ = ![1 / 3, 1 / 3, 0] := by
  simp only [centroid, scenarioSource, List.sum_cons, List.sum_nil, List.length_cons,
    List.length_nil]
  ext i
  fin_cases i <;> simp

theorem scenarioTarget_centroid :
    centroid (scenarioTarget : PointCloud K).points_ = ![4 / 3, 7 / 3, 3] := by
  simp only [centroid, scenarioTarget, List.sum_cons, List.sum_nil, List.length_cons,
    List.length_nil]
  ext i
  fin_cases i <;> simp <;> norm_num

theorem scenario_crossCovariance :
    crossCovariance (scenarioSource : PointCloud K).points_
        (scenarioTarget : PointCloud K).points_ =
      !![2 / 9, -(1 / 9), 0; -(1 / 9), 2 / 9, 0; 0, 0, 0] := by
  simp only [crossCovariance, demean, scenario_centroid, scenarioTarget_centroid]
  simp only [scenarioSource, scenarioTarget, List.map_cons, List.map_nil,
    List.zipWith_cons_cons, List.zipWith_nil_right, List.sum_cons, List.sum_nil,
    List.length_cons, List.length_nil]
  ext i j
  fin_cases i <;> fin_cases j <;> simp [Matrix.vecMulVec_apply] <;> first | rfl | norm_num

theorem diagonalTurn_orthogonal (r : K) (hr : r * r = 1 / 2) :
    (diagonalTurn r)ᵀ * diagonalTurn r = 1 := by
  ext i j
  simp only [mul3_apply, Matrix.transpose_apply, Matrix.one_apply]
  fin_cases i <;> fin_cases j <;> simp [diagonalTurn, Matrix.vecHead, Matrix.vecTail] <;>
    linarith

theorem scenarioSVD_isSVD (r : K) (hr : r * r = 1 / 2) :
    IsSVDOf (scenarioSVD r (!![2 / 9, -(1 / 9), 0; -(1 / 9), 2 / 9, 0; 0, 0, 0] : Matrix3d K))
      !![2 / 9, -(1 / 9), 0; -(1 / 9), 2 / 9, 0; 0, 0, 0] := by
  refine ⟨diagonalTurn_orthogonal r hr, diagonalTurn_orthogonal r hr, ⟨?_, ?_, ?_⟩, ?_⟩
  · simp [scenarioSVD]
  · simp [scenarioSVD]
  · simp only [scenarioSVD, Matrix.cons_val_zero, Matrix.cons_val_one, Matrix.head_cons]
    norm_num
  · ext i j
    simp only [mul3_apply, scenarioSVD, Matrix.transpose_apply, Matrix.diagonal_apply]
    fin_cases i <;> fin_cases j <;> simp [diagonalTurn, Matrix.vecHead, Matrix.vecTail] <;>
      linarith


theorem scenario_notCollinear : NotCollinear (scenarioSource : PointCloud K).points_ := by
  refine ⟨![0, 0, 0], by simp [scenarioSource], ![1, 0, 0], by simp [scenarioSource],
    ![0, 1, 0], by simp [scenarioSource], ?_⟩
  intro h
  have := congrFun h 2
  simp [cross_apply] at this

theorem scenarioTarget_eq :
    (scenarioTarget : PointCloud K).points_ =
      (scenarioSource : PointCloud K).points_.map (fun p => (1 : Matrix3d K) *ᵥ p + ![1, 2, 3]) := by
  simp only [scenarioTarget, scenarioSource, List.map_cons, List.map_nil, List.cons.injEq,
    and_true, Matrix.one_mulVec]
  refine ⟨?_, ?_, ?_⟩ <;>
    (ext i
     fin_cases i <;> simp <;> norm_num)

theorem one_proper : IsProperRotation (1 : Matrix3d K) := by
  constructor <;> simp

theorem sqrt_two_half : Real.sqrt 2 / 2 * (Real.sqrt 2 / 2) = 1 / 2 := by
  have h : Real.sqrt 2 * Real.sqrt 2 = 2 := Real.mul_self_sqrt (by norm_num)
  linear_combination (1 / 4 : ℝ) * h

/-- Witness of C5: the concrete scenario of the specification, source
(0,0,0), (1,0,0), (0,1,0) and target translated by (1,2,3); the result is the
identity rotation with translation (1,2,3). -/
theorem perfect_alignment_recovery_witness :
    IsProperRotation (1 : Matrix3d ℝ) ∧
    NotCollinear (scenarioSource : PointCloud ℝ).points_ ∧
    (scenarioTarget : PointCloud ℝ).points_ =
      (scenarioSource : PointCloud ℝ).points_.map (fun p => (1 : Matrix3d ℝ) *ᵥ p + ![1, 2, 3]) ∧
    IsSVDOf (scenarioSVD (Real.sqrt 2 / 2)
        (crossCovariance (scenarioSource : PointCloud ℝ).points_
          (scenarioTarget : PointCloud ℝ).points_))
      (crossCovariance (scenarioSource : PointCloud ℝ).points_
        (scenarioTarget : PointCloud ℝ).points_) ∧
    (TransformationEstimationPointToPoint.mk false).ComputeTransformation
        (scenarioSVD (Real.sqrt 2 / 2)) scenarioSource scenarioTarget
        (identityPairing (scenarioSource : PointCloud ℝ).points_.length) =
      some (fromBlocks34 1 ![1, 2, 3]) :=
  have hsvd : IsSVDOf (scenarioSVD (Real.sqrt 2 / 2)
        (crossCovariance (scenarioSource : PointCloud ℝ).points_
          (scenarioTarget : PointCloud ℝ).points_))
      (crossCovariance (scenarioSource : PointCloud ℝ).points_
        (scenarioTarget : PointCloud ℝ).points_) := by
    rw [scenario_crossCovariance]
    exact scenarioSVD_isSVD _ sqrt_two_half
  ⟨one_proper, scenario_notCollinear, scenarioTarget_eq, hsvd,
    perfect_alignment_recovery (scenarioSVD (Real.sqrt 2 / 2)) scenarioSource scenarioTarget 1
      one_proper ![1, 2, 3] scenario_notCollinear scenarioTarget_eq hsvd⟩

/-! ### Order of the correspondences, degenerate systems and the shape of the result -/

theorem getLast?_map_getD {α : Type} (f : α → K) (l : List α) (hne : l ≠ []) (d : K) :
    (l.map f).getLast?.getD d = f (l.getLast hne) := by
  rw [List.getLast?_eq_getLast _ (by simpa using hne)]
  simp [List.getLast_map]

/-- C17: for a target with normals and a non-empty correspondence list of N
pairs with indices in range, point-to-plane ComputeRMSE returns
`sqrt(r_last² / N)` where `r_last` is the residual of the last correspondence
in list order: the accumulator is overwritten on every iteration. -/
theorem pointToPlane_rmse_last (self : TransformationEstimationPointToPlane) (sqrt : K → K)
    (source target : PointCloud K) (corres : CorrespondenceSet) (hne : corres ≠ [])
    (hn : target.HasNormals = true) (hin : InRange source target corres) :
    self.ComputeRMSE sqrt source target corres =
      some (sqrt (residualOf source target (corres.getLast hne) ^ 2 / (corres.length : K))) := by
  unfold TransformationEstimationPointToPlane.ComputeRMSE
  have h1 : corres.isEmpty = false := by simpa using hne
  simp only [h1, hn, pointToPlane_fold source target corres 0 hn hin]
  rw [getLast?_map_getD _ corres hne]
  simp [residualOf, pow_two]

/-- C17 applied to the scenario of the specification over the rationals. -/
theorem pointToPlane_rmse_last_witness :
    scenarioPairs ≠ [] ∧ (scenarioTarget : PointCloud ℚ).HasNormals = true ∧
    InRange (scenarioSource : PointCloud ℚ) scenarioTarget scenarioPairs ∧
    TransformationEstimationPointToPlane.mk.ComputeRMSE id
        (scenarioSource : PointCloud ℚ) scenarioTarget scenarioPairs =
      some (id (residualOf (scenarioSource : PointCloud ℚ) scenarioTarget
        (scenarioPairs.getLast (by decide)) ^ 2 / ((scenarioPairs.length : ℕ) : ℚ))) :=
  ⟨by decide, by decide, by simp [InRange, scenarioSource, scenarioTarget, scenarioPairs],
    pointToPlane_rmse_last TransformationEstimationPointToPlane.mk id
      (scenarioSource : PointCloud ℚ) scenarioTarget scenarioPairs (by decide) (by decide)
      (by simp [InRange, scenarioSource, scenarioTarget, scenarioPairs])⟩

theorem InRange.perm {source target : PointCloud K} {l l2 : CorrespondenceSet}
    (h : InRange source target l) (hp : l.Perm l2) : InRange source target l2 :=
  fun c hc => h c (hp.mem_iff.mpr hc)

/-- C14 amended: evaluated in exact arithmetic, the value point-to-point
ComputeRMSE computes is the same on every permutation of a correspondence
list with indices in range: the sum of the squared distances is symmetric. -/
theorem pointToPoint_order_irrelevant (self : TransformationEstimationPointToPoint)
    (sqrt : K → K)
    (source target : PointCloud K) (corres permuted : CorrespondenceSet)
    (hperm : corres.Perm permuted) (hin : InRange source target corres) :
    self.ComputeRMSE sqrt source target permuted =
      self.ComputeRMSE sqrt source target corres := by
  unfold TransformationEstimationPointToPoint.ComputeRMSE
  have hempty : permuted.isEmpty = corres.isEmpty := by
    cases corres with
    | nil => rw [List.Perm.nil_eq hperm]
    | cons c cs =>
      cases permuted with
      | nil => exact absurd hperm.symm (List.not_perm_nil_cons _ _).elim
      | cons d ds => rfl
  rw [hempty, pointToPoint_fold source target corres 0 hin,
    pointToPoint_fold source target permuted 0 (hin.perm hperm),
    (hperm.map _).sum_eq, hperm.length_eq]

/-- The amended statement of C14 applied to the scenario of the specification
and a rotation of its correspondence list. -/
theorem pointToPoint_order_irrelevant_witness :
    scenarioPairs.Perm [(2, 2), (0, 0), (1, 1)] ∧
    InRange (scenarioSource : PointCloud ℚ) scenarioTarget scenarioPairs ∧
    (TransformationEstimationPointToPoint.mk false).ComputeRMSE id
        (scenarioSource : PointCloud ℚ) scenarioTarget [(2, 2), (0, 0), (1, 1)] =
      (TransformationEstimationPointToPoint.mk false).ComputeRMSE id
        (scenarioSource : PointCloud ℚ) scenarioTarget scenarioPairs :=
  ⟨by decide, by simp [InRange, scenarioSource, scenarioTarget, scenarioPairs],
    pointToPoint_order_irrelevant (TransformationEstimationPointToPoint.mk false) id
      (scenarioSource : PointCloud ℚ) scenarioTarget scenarioPairs [(2, 2), (0, 0), (1, 1)]
      (by decide) (by simp [InRange, scenarioSource, scenarioTarget, scenarioPairs])⟩

/-- Samples of the binary64 operations: a tie goes to the even neighbour in
both directions, one third and the roots of two and of one eighth are rounded
to 53 bits, the root of four is exact, `2 ^ 1024` overflows, the least
subnormal is kept and half of it goes to zero. -/
theorem binary64_samples :
    roundToDouble (10000000000000000 + 1) = some 10000000000000000 ∧
    roundToDouble (10000000000000000 + 3) = some 10000000000000004 ∧
    roundToDouble (1 / 3) = some (6004799503160661 / 2 ^ 54) ∧
    sqrt64 2 = some (6369051672525773 / 2 ^ 52) ∧
    sqrt64 4 = some 2 ∧
    sqrt64 (1 / 8) = some (6369051672525773 / 2 ^ 54) ∧
    roundToDouble (pow2 1024) = none ∧
    roundToDouble (pow2 (-1074)) = some (pow2 (-1074)) ∧
    roundToDouble (pow2 (-1075)) = some 0 := by
  decide!

/-- C14 as stated fails in binary64: with source points (1e8,0,0), (1,0,0),
(1,0,0) and all target points at the origin, the loop `err +=` gives 1e16 on
the order (0,0),(1,1),(2,2), where each added 1 is lost to rounding, and
1e16 + 2 on the order (1,1),(2,2),(0,0).  The returned values are
0x1.b87bb975a090dp+25 and 0x1.b87bb975a090ep+25. -/
theorem binary64_rmse_order_dependent :
    spreadSource.IsBinary64 ∧ originTarget.IsBinary64 ∧
    InRange spreadSource originTarget [(0, 0), (1, 1), (2, 2)] ∧
    List.Perm [((0 : ℕ), (0 : ℕ)), (1, 1), (2, 2)] [(1, 1), (2, 2), (0, 0)] ∧
    (TransformationEstimationPointToPoint.mk false).ComputeRMSE64 spreadSource originTarget
      [(0, 0), (1, 1), (2, 2)] = some (7749064139081997 / 2 ^ 27) ∧
    (TransformationEstimationPointToPoint.mk false).ComputeRMSE64 spreadSource originTarget
      [(1, 1), (2, 2), (0, 0)] = some (7749064139081998 / 2 ^ 27) ∧
    (TransformationEstimationPointToPoint.mk false).ComputeRMSE64 spreadSource originTarget
        [(1, 1), (2, 2), (0, 0)] ≠
      (TransformationEstimationPointToPoint.mk false).ComputeRMSE64 spreadSource originTarget
        [(0, 0), (1, 1), (2, 2)] := by
  refine ⟨?_, ?_, ?_, by decide, by decide!, by decide!, by decide!⟩
  · unfold PointCloud.IsBinary64
    decide!
  · unfold PointCloud.IsBinary64
    decide!
  · simp [InRange, spreadSource, originTarget]

/-- C15, evaluated at a failing input: on a target with normals and the two
in-range correspondences (0,0) and (1,1), whose residuals are 1 and 0,
point-to-plane ComputeRMSE returns 0 on the list in that order and
`sqrt(1/2)` on the list reversed, so the result depends on the order. -/
theorem pointToPlane_rmse_order_dependent :
    (flatTarget : PointCloud ℝ).HasNormals = true ∧
    InRange (liftedSource : PointCloud ℝ) flatTarget [(0, 0), (1, 1)] ∧
    List.Perm [((0 : ℕ), (0 : ℕ)), (1, 1)] [(1, 1), (0, 0)] ∧
    TransformationEstimationPointToPlane.mk.ComputeRMSE Real.sqrt
      (liftedSource : PointCloud ℝ) flatTarget [(0, 0), (1, 1)] = some 0 ∧
    TransformationEstimationPointToPlane.mk.ComputeRMSE Real.sqrt
      (liftedSource : PointCloud ℝ) flatTarget [(1, 1), (0, 0)] = some (Real.sqrt (1 / 2)) ∧
    Real.sqrt (1 / 2) ≠ 0 := by
  have hn : (flatTarget : PointCloud ℝ).HasNormals = true := by
    simp [PointCloud.HasNormals, flatTarget]
  have h0 : ∀ e : ℝ,
      pointToPlaneStep (liftedSource : PointCloud ℝ) flatTarget e (0, 0) = some 1 := by
    intro e
    simp only [pointToPlaneStep, liftedSource, flatTarget, List.getElem?_cons_zero]
    simp [residual]
  have h1 : ∀ e : ℝ,
      pointToPlaneStep (liftedSource : PointCloud ℝ) flatTarget e (1, 1) = some 0 := by
    intro e
    simp only [pointToPlaneStep, liftedSource, flatTarget, List.getElem?_cons_succ,
      List.getElem?_cons_zero]
    simp [residual]
  refine ⟨hn, by simp [InRange, liftedSource, flatTarget], by decide, ?_, ?_, ?_⟩
  · simp only [TransformationEstimationPointToPlane.ComputeRMSE, hn, List.foldlM_cons,
      List.foldlM_nil, h0, h1, Option.bind_eq_bind, Option.some_bind, Option.pure_def,
      List.isEmpty_cons]
    simp
  · simp only [TransformationEstimationPointToPlane.ComputeRMSE, hn, List.foldlM_cons,
      List.foldlM_nil, h0, h1, Option.bind_eq_bind, Option.some_bind, Option.pure_def,
      List.isEmpty_cons]
    simp
  · norm_num

/-- On the identity pairing the point-to-point error is computed from the
distances between each source point and its image. -/
theorem pointToPoint_identityPairing_map (source target : PointCloud K)
    (f : Vector3d K → Vector3d K) (ht : target.points_ = source.points_.map f) :
    (identityPairing source.points_.length).map (fun c =>
        squaredNorm (source.pointAt c.1 - target.pointAt c.2)) =
      source.points_.map (fun p => squaredNorm (p - f p)) := by
  apply List.ext_getElem
  · simp [identityPairing]
  · intro i h1 h2
    have hi : i < source.points_.length := by simpa using h2
    simp [identityPairing, PointCloud.pointAt, ht, List.getD, List.getElem?_eq_getElem hi]

/-- C13 as stated fails: on the scenario of the specification (source
translated by (1,2,3), identity pairing) point-to-point
ComputeRMSE(source, target, correspondences) is `sqrt 14`, not 0: the
function does not apply any transformation to the source. -/
theorem unaligned_rmse_nonzero :
    IsProperRotation (1 : Matrix3d ℝ) ∧
    (scenarioTarget : PointCloud ℝ).points_ =
      (scenarioSource : PointCloud ℝ).points_.map (fun p => (1 : Matrix3d ℝ) *ᵥ p + ![1, 2, 3]) ∧
    scenarioPairs = identityPairing (scenarioSource : PointCloud ℝ).points_.length ∧
    (TransformationEstimationPointToPoint.mk false).ComputeRMSE Real.sqrt
      (scenarioSource : PointCloud ℝ) scenarioTarget scenarioPairs = some (Real.sqrt 14) ∧
    (TransformationEstimationPointToPoint.mk false).ComputeRMSE Real.sqrt
      (scenarioSource : PointCloud ℝ) scenarioTarget scenarioPairs ≠ some 0 := by
  have hval : (TransformationEstimationPointToPoint.mk false).ComputeRMSE Real.sqrt
      (scenarioSource : PointCloud ℝ) scenarioTarget scenarioPairs = some (Real.sqrt 14) := by
    have hpair : scenarioPairs = identityPairing (scenarioSource : PointCloud ℝ).points_.length :=
      by decide
    unfold TransformationEstimationPointToPoint.ComputeRMSE
    rw [if_neg (by decide), pointToPoint_fold _ _ _ 0
      (by simp [InRange, scenarioSource, scenarioTarget, scenarioPairs])]
    rw [hpair, pointToPoint_identityPairing_map _ _ _ scenarioTarget_eq]
    have hsum : ((scenarioSource : PointCloud ℝ).points_.map (fun p =>
        squaredNorm (p - ((1 : Matrix3d ℝ) *ᵥ p + ![1, 2, 3])))).sum = 42 := by
      simp only [scenarioSource, List.map_cons, List.map_nil, List.sum_cons, List.sum_nil,
        Matrix.one_mulVec, squaredNorm]
      simp [Matrix.dotProduct, Fin.sum_univ_three]
      norm_num
    have hlen : ((identityPairing (scenarioSource : PointCloud ℝ).points_.length).length : ℝ)
        = 3 := by
      simp [identityPairing, scenarioSource]
    rw [hsum, hlen]
    simp only [Option.bind_eq_bind, Option.some_bind, Option.pure_def]
    congr 2
    norm_num
  refine ⟨one_proper, scenarioTarget_eq, by decide, hval, ?_⟩
  rw [hval]
  intro h
  have h14 : Real.sqrt 14 = 0 := Option.some.inj h
  have : (0 : ℝ) < Real.sqrt 14 := Real.sqrt_pos.mpr (by norm_num)
  linarith

/-- C13 amended: when `target` is `source` moved by `p ↦ R p + t`, with the
identity pairing, point-to-point ComputeRMSE is 0 on the source after it has
been moved by that transform; on the source as given it is the root of the
mean of `‖p − (R p + t)‖²`. -/
theorem aligned_rmse_zero (self : TransformationEstimationPointToPoint)
    (source target : PointCloud ℝ) (R : Matrix3d ℝ) (t : Vector3d ℝ)
    (ht : target.points_ = source.points_.map (fun p => R *ᵥ p + t)) :
    self.ComputeRMSE Real.sqrt ⟨source.points_.map (fun p => R *ᵥ p + t), source.normals_⟩
        target (identityPairing source.points_.length) = some 0 ∧
    (source.points_ ≠ [] →
      self.ComputeRMSE Real.sqrt source target (identityPairing source.points_.length) =
        some (Real.sqrt ((source.points_.map (fun p => squaredNorm (p - (R *ᵥ p + t)))).sum /
          (source.points_.length : ℝ)))) := by
  have hlen : target.points_.length = source.points_.length := by rw [ht, List.length_map]
  constructor
  · by_cases hne : source.points_ = []
    · simp [hne, identityPairing, TransformationEstimationPointToPoint.ComputeRMSE]
    · have hpos : 0 < source.points_.length := List.length_pos.mpr hne
      unfold TransformationEstimationPointToPoint.ComputeRMSE
      rw [if_neg (by simpa using identityPairing_ne_nil _ hpos),
        pointToPoint_fold _ _ _ 0 (inRange_identityPairing _ _ _ (by simp) hlen)]
      have hmap := pointToPoint_identityPairing_map
        (⟨source.points_.map (fun p => R *ᵥ p + t), source.normals_⟩ : PointCloud ℝ) target
        (fun p => p) (by simpa using ht)
      simp only [List.length_map] at hmap
      rw [hmap]
      have hz : ((source.points_.map (fun p => R *ᵥ p + t)).map
          (fun p => squaredNorm (p - p))).sum = 0 := by
        apply List.sum_eq_zero
        intro x hx
        obtain ⟨p, -, rfl⟩ := List.mem_map.mp hx
        simp [squaredNorm]
      rw [hz]
      simp
  · intro hne
    have hpos : 0 < source.points_.length := List.length_pos.mpr hne
    unfold TransformationEstimationPointToPoint.ComputeRMSE
    rw [if_neg (by simpa using identityPairing_ne_nil _ hpos),
      pointToPoint_fold _ _ _ 0 (inRange_identityPairing _ _ _ rfl hlen),
      pointToPoint_identityPairing_map _ _ _ ht]
    simp [identityPairing]

/-- The amended statement of C13 applied to the scenario of the specification
(identity rotation, translation (1,2,3)). -/
theorem aligned_rmse_zero_witness :
    (scenarioTarget : PointCloud ℝ).points_ =
      (scenarioSource : PointCloud ℝ).points_.map (fun p => (1 : Matrix3d ℝ) *ᵥ p + ![1, 2, 3]) ∧
    (scenarioSource : PointCloud ℝ).points_ ≠ [] ∧
    (TransformationEstimationPointToPoint.mk false).ComputeRMSE Real.sqrt
        ⟨(scenarioSource : PointCloud ℝ).points_.map (fun p => (1 : Matrix3d ℝ) *ᵥ p + ![1, 2, 3]),
          (scenarioSource : PointCloud ℝ).normals_⟩
        scenarioTarget (identityPairing (scenarioSource : PointCloud ℝ).points_.length) = some 0 ∧
    (TransformationEstimationPointToPoint.mk false).ComputeRMSE Real.sqrt
        (scenarioSource : PointCloud ℝ) scenarioTarget
        (identityPairing (scenarioSource : PointCloud ℝ).points_.length) =
      some (Real.sqrt (((scenarioSource : PointCloud ℝ).points_.map
        (fun p => squaredNorm (p - ((1 : Matrix3d ℝ) *ᵥ p + ![1, 2, 3])))).sum /
          ((scenarioSource : PointCloud ℝ).points_.length : ℝ))) :=
  have h := aligned_rmse_zero (TransformationEstimationPointToPoint.mk false)
    (scenarioSource : PointCloud ℝ) scenarioTarget 1 ![1, 2, 3] scenarioTarget_eq
  have hne : (scenarioSource : PointCloud ℝ).points_ ≠ [] := by simp [scenarioSource]
  ⟨scenarioTarget_eq, hne, h.1, h.2 hne⟩

theorem rotX_proper (a : ℝ) : IsProperRotation (rotX Real.cos Real.sin a) := by
  have h := Real.cos_sq_add_sin_sq a
  constructor
  · ext i j
    simp only [mul3_apply, Matrix.transpose_apply, Matrix.one_apply]
    fin_cases i <;> fin_cases j <;> simp [rotX, Matrix.vecHead, Matrix.vecTail] <;>
      nlinarith [h]
  · simp [Matrix.det_fin_three, rotX]
    nlinarith [h]

theorem rotY_proper (a : ℝ) : IsProperRotation (rotY Real.cos Real.sin a) := by
  have h := Real.cos_sq_add_sin_sq a
  constructor
  · ext i j
    simp only [mul3_apply, Matrix.transpose_apply, Matrix.one_apply]
    fin_cases i <;> fin_cases j <;> simp [rotY, Matrix.vecHead, Matrix.vecTail] <;>
      nlinarith [h]
  · simp [Matrix.det_fin_three, rotY]
    nlinarith [h]

theorem rotZ_proper (a : ℝ) : IsProperRotation (rotZ Real.cos Real.sin a) := by
  have h := Real.cos_sq_add_sin_sq a
  constructor
  · ext i j
    simp only [mul3_apply, Matrix.transpose_apply, Matrix.one_apply]
    fin_cases i <;> fin_cases j <;> simp [rotZ, Matrix.vecHead, Matrix.vecTail] <;>
      nlinarith [h]
  · simp [Matrix.det_fin_three, rotZ]
    nlinarith [h]

theorem IsProperRotation.mul {A B : Matrix3d K} (hA : IsProperRotation A)
    (hB : IsProperRotation B) : IsProperRotation (A * B) := by
  constructor
  · rw [Matrix.transpose_mul, Matrix.mul_assoc, mul_cancel_left_of_eq_one hA.1, hB.1]
  · rw [Matrix.det_mul, hA.2, hB.2, mul_one]

/-- C20: for every real twist vector the 3x3 block that point-to-plane
ComputeTransformation writes is `Rz(x2) Ry(x1) Rx(x0)`, and it is a proper
rotation: `Rᵀ R = I` and `det R = 1`. -/
theorem twist_rotation_proper (x : Vector6d ℝ) :
    rotationBlock (twistToMatrix Real.cos Real.sin x) =
      rotZ Real.cos Real.sin (x 2) * rotY Real.cos Real.sin (x 1) *
        rotX Real.cos Real.sin (x 0) ∧
    (rotationBlock (twistToMatrix Real.cos Real.sin x))ᵀ *
      rotationBlock (twistToMatrix Real.cos Real.sin x) = 1 ∧
    (rotationBlock (twistToMatrix Real.cos Real.sin x)).det = 1 := by
  have hblock : rotationBlock (twistToMatrix Real.cos Real.sin x) =
      rotZ Real.cos Real.sin (x 2) * rotY Real.cos Real.sin (x 1) *
        rotX Real.cos Real.sin (x 0) := by
    rw [twistToMatrix, rotationBlock_fromBlocks34, toRotationMatrix_UnitX,
      toRotationMatrix_UnitY, toRotationMatrix_UnitZ]
  refine ⟨hblock, ?_⟩
  rw [hblock]
  exact ((rotZ_proper (x 2)).mul (rotY_proper (x 1))).mul (rotX_proper (x 0))

/-- The factorisation of a symmetric matrix all of whose pivots are positive
is lower triangular with positive diagonal and reproduces the matrix. -/
theorem cholesky_spec_of_pivots (sqrt : K → K) (hs : IsSqrt sqrt) :
    ∀ (n : ℕ) (A : Matrix (Fin n) (Fin n) K), (∀ i j, A i j = A j i) →
      pivotsPositive sqrt n A = true →
      IsLowerPos (cholesky sqrt n A) ∧
      ∀ i j, ∑ k, cholesky sqrt n A i k * cholesky sqrt n A j k = A i j := by
  intro n
  induction n with
  | zero =>
    intro A _ _
    exact ⟨⟨fun i => i.elim0, fun i => i.elim0⟩, fun i => i.elim0⟩
  | succ n ih =>
    intro A hsymm hpiv
    simp only [pivotsPositive, Bool.and_eq_true, decide_eq_true_eq] at hpiv
    obtain ⟨hlpos, hll⟩ := hs (A 0 0) hpiv.1
    have hl0 : sqrt (A 0 0) ≠ 0 := ne_of_gt hlpos
    obtain ⟨⟨htri, hdiag⟩, hprod⟩ := ih _ (fun i j => by
      show A i.succ j.succ - _ = A j.succ i.succ - _
      rw [hsymm i.succ j.succ, mul_comm]) hpiv.2
    refine ⟨⟨?_, ?_⟩, ?_⟩
    · intro i j
      induction i using Fin.cases with
      | zero =>
        induction j using Fin.cases with
        | zero => intro h; exact absurd h (lt_irrefl _)
        | succ j => intro _; rfl
      | succ i =>
        induction j using Fin.cases with
        | zero => intro h; exact absurd h (Fin.not_lt_zero _)
        | succ j =>
          intro h
          rw [cholesky_succ_succ]
          exact htri i j (Fin.succ_lt_succ_iff.mp h)
    · intro i
      induction i using Fin.cases with
      | zero => exact hlpos
      | succ i => rw [cholesky_succ_succ]; exact hdiag i
    · intro i j
      rw [Fin.sum_univ_succ]
      induction i using Fin.cases with
      | zero =>
        induction j using Fin.cases with
        | zero =>
          simp only [cholesky_zero_zero, cholesky_zero_succ, mul_zero, Finset.sum_const_zero,
            add_zero]
          exact hll
        | succ j =>
          simp only [cholesky_zero_zero, cholesky_zero_succ, cholesky_succ_zero, zero_mul,
            Finset.sum_const_zero, add_zero]
          rw [hsymm 0 j.succ]
          field_simp
      | succ i =>
        induction j using Fin.cases with
        | zero =>
          simp only [cholesky_zero_zero, cholesky_zero_succ, cholesky_succ_zero, mul_zero,
            Finset.sum_const_zero, add_zero]
          field_simp
        | succ j =>
          simp only [cholesky_succ_zero, cholesky_succ_succ]
          rw [hprod i j]
          ring

/-- A singular matrix has no Cholesky factor with positive diagonal. -/
theorem no_factor_of_singular {n : ℕ} (A : Matrix (Fin n) (Fin n) K)
    (hsing : ∃ x : Fin n → K, x ≠ 0 ∧ A *ᵥ x = 0) :
    ¬ ∃ L : Matrix (Fin n) (Fin n) K, IsLowerPos L ∧ L * Lᵀ = A := by
  rintro ⟨L, ⟨htri, hdiag⟩, hL⟩
  obtain ⟨x, hx, hAx⟩ := hsing
  have hdet : L.det ≠ 0 := by
    rw [Matrix.det_of_lowerTriangular L (fun i j hij => htri i j hij)]
    exact Finset.prod_ne_zero_iff.mpr (fun i _ => ne_of_gt (hdiag i))
  have hdetT : Lᵀ.det ≠ 0 := by rwa [Matrix.det_transpose]
  rw [← hL, ← Matrix.mulVec_mulVec] at hAx
  exact hx (Matrix.eq_zero_of_mulVec_eq_zero hdetT (Matrix.eq_zero_of_mulVec_eq_zero hdet hAx))

/-- On a singular symmetric matrix the factorisation reports a numerical
issue. -/
theorem llt_info_of_singular (sqrt : K → K) (hs : IsSqrt sqrt) {n : ℕ}
    (A : Matrix (Fin n) (Fin n) K) (hsymm : ∀ i j, A i j = A j i)
    (hsing : ∃ x : Fin n → K, x ≠ 0 ∧ A *ᵥ x = 0) :
    (llt sqrt A).info = ComputationInfo.NumericalIssue := by
  by_cases hp : pivotsPositive sqrt n A = true
  · exfalso
    obtain ⟨hlow, hprod⟩ := cholesky_spec_of_pivots sqrt hs n A hsymm hp
    apply no_factor_of_singular A hsing
    refine ⟨cholesky sqrt n A, hlow, ?_⟩
    ext i j
    rw [Matrix.mul_apply]
    simpa [Matrix.transpose_apply] using hprod i j
  · simp [llt, hp]

theorem normalMatrix_mulVec_eq_zero (source target : PointCloud K) (corres : CorrespondenceSet)
    (x : Vector6d K) (h : ∀ c ∈ corres, rowOf source target c ⬝ᵥ x = 0) :
    normalMatrix source target corres *ᵥ x = 0 := by
  induction corres with
  | nil => simp [normalMatrix]
  | cons c cs ih =>
    rw [normalMatrix_cons, Matrix.add_mulVec, vecMulVec_self_mulVec,
      h c (List.mem_cons_self _ _), zero_smul, zero_add]
    exact ih (fun d hd => h d (List.mem_cons_of_mem _ hd))

/-- Fewer than six vectors of dimension six have a common non-zero orthogonal
vector. -/
theorem exists_orthogonal_of_length_lt (l : List (Vector6d K)) (h : l.length < 6) :
    ∃ x : Vector6d K, x ≠ 0 ∧ ∀ a ∈ l, a ⬝ᵥ x = 0 := by
  have hdet : (Matrix.of (fun i : Fin 6 => l.getD i.val 0)).det = 0 := by
    apply Matrix.det_eq_zero_of_row_eq_zero (5 : Fin 6)
    intro j
    have : l.getD 5 (0 : Vector6d K) = 0 := by
      simp only [List.getD_eq_getElem?_getD]
      rw [List.getElem?_eq_none (by omega)]
      rfl
    simp only [Matrix.of_apply]
    show l.getD 5 (0 : Vector6d K) j = 0
    rw [this]
    rfl
  obtain ⟨x, hx, hBx⟩ := Matrix.exists_mulVec_eq_zero_iff.mpr hdet
  refine ⟨x, hx, fun a ha => ?_⟩
  obtain ⟨i, hi, rfl⟩ := List.getElem_of_mem ha
  have hrow := congrFun hBx ⟨i, by omega⟩
  simp only [Matrix.mulVec, Matrix.of_apply, Pi.zero_apply] at hrow
  rw [← hrow]
  congr 1
  simp [List.getD, List.getElem?_eq_getElem hi]

theorem rowOf_dot_axis (source target : PointCloud K) (c : ℕ × ℕ) (d : Vector3d K) (k : K)
    (hk : target.normalAt c.2 = k • d) :
    rowOf source target c ⬝ᵥ ![d 0, d 1, d 2, 0, 0, 0] = 0 := by
  simp only [rowOf, stackedRow, hk, Matrix.dotProduct, Fin.sum_univ_succ, Fin.sum_univ_zero,
    cross_apply]
  simp
  ring

theorem rowOf_of_normal_zero (source target : PointCloud K) (c : ℕ × ℕ)
    (h0 : target.normalAt c.2 = 0) (x : Vector6d K) : rowOf source target c ⬝ᵥ x = 0 := by
  have : rowOf source target c = 0 := by
    funext i
    simp only [rowOf, stackedRow, h0, cross_apply]
    fin_cases i <;> simp <;> rfl
  rw [this, Matrix.zero_dotProduct]

/-- Degenerate correspondences: with fewer than six pairs, or with all the
referenced normals parallel, some non-zero vector is orthogonal to every row
`A_i`. -/
theorem exists_orthogonal_of_degenerate (source target : PointCloud K)
    (corres : CorrespondenceSet)
    (hdeg : corres.length < 6 ∨
      ∃ d : Vector3d K, ∀ c ∈ corres, ∃ k : K, target.normalAt c.2 = k • d) :
    ∃ x : Vector6d K, x ≠ 0 ∧ ∀ c ∈ corres, rowOf source target c ⬝ᵥ x = 0 := by
  rcases hdeg with hlt | ⟨d, hd⟩
  · obtain ⟨x, hx, hall⟩ := exists_orthogonal_of_length_lt (corres.map (rowOf source target))
      (by simpa using hlt)
    exact ⟨x, hx, fun c hc => hall _ (List.mem_map_of_mem _ hc)⟩
  · by_cases hd0 : d = 0
    · refine ⟨Pi.single 0 1, ?_, fun c hc => ?_⟩
      · intro h
        have := congrFun h 0
        simp at this
      · obtain ⟨k, hk⟩ := hd c hc
        exact rowOf_of_normal_zero source target c (by rw [hk, hd0, smul_zero]) _
    · refine ⟨![d 0, d 1, d 2, 0, 0, 0], ?_, fun c hc => ?_⟩
      · intro h
        apply hd0
        funext i
        fin_cases i
        · exact congrFun h 0
        · exact congrFun h 1
        · exact congrFun h 2
      · obtain ⟨k, hk⟩ := hd c hc
        exact rowOf_dot_axis source target c d k hk

theorem normalMatrix_singular_of_degenerate (source target : PointCloud K)
    (corres : CorrespondenceSet)
    (hdeg : corres.length < 6 ∨
      ∃ d : Vector3d K, ∀ c ∈ corres, ∃ k : K, target.normalAt c.2 = k • d) :
    ∃ x : Vector6d K, x ≠ 0 ∧ normalMatrix source target corres *ᵥ x = 0 := by
  obtain ⟨x, hx, hall⟩ := exists_orthogonal_of_degenerate source target corres hdeg
  exact ⟨x, hx, normalMatrix_mulVec_eq_zero source target corres x hall⟩

theorem fromBlocks34_bottom (R : Matrix3d K) (t : Vector3d K) :
    fromBlocks34 R t 3 = ![0, 0, 0, 1] := rfl

theorem one_bottom : (1 : Matrix4d K) 3 = ![0, 0, 0, 1] := by
  funext j
  fin_cases j <;> simp <;> rfl

/-- C16: for any clouds, any correspondence list with indices in range,
either variant and either value of `with_scaling_`, ComputeTransformation
returns a matrix whose bottom row is exactly `[0, 0, 0, 1]`. -/
theorem bottom_row_fixed (p2p : TransformationEstimationPointToPoint)
    (p2l : TransformationEstimationPointToPlane) (svd : Matrix3d K → JacobiSVD K)
    (sqrt cos sin : K → K) (unspecified : Matrix6d K → Vector6d K → Vector6d K)
    (source target : PointCloud K) (corres : CorrespondenceSet)
    (hin : InRange source target corres) :
    (∃ M : Matrix4d K, p2p.ComputeTransformation svd source target corres = some M ∧
      M 3 = ![0, 0, 0, 1]) ∧
    (∃ M : Matrix4d K,
      p2l.ComputeTransformation sqrt cos sin unspecified source target corres = some M ∧
      M 3 = ![0, 0, 0, 1]) := by
  by_cases hne : corres = []
  · subst hne
    exact ⟨⟨1, rfl, one_bottom⟩, ⟨1, rfl, one_bottom⟩⟩
  · refine ⟨⟨_, pointToPoint_transformation_eq p2p svd source target corres hne hin,
      fromBlocks34_bottom _ _⟩, ?_⟩
    by_cases hn : target.HasNormals = true
    · exact ⟨_, pointToPlane_transformation_eq p2l sqrt cos sin unspecified source target
        corres hne hn hin, fromBlocks34_bottom _ _⟩
    · refine ⟨1, ?_, one_bottom⟩
      have hn2 : target.HasNormals = false := by simpa using hn
      simp [TransformationEstimationPointToPlane.ComputeTransformation, hn2]

/-- C16 applied to the scenario of the specification. -/
theorem bottom_row_fixed_witness :
    InRange (scenarioSource : PointCloud ℚ) scenarioTarget scenarioPairs ∧
    ((∃ M : Matrix4d ℚ,
      (TransformationEstimationPointToPoint.mk true).ComputeTransformation (scenarioSVD 0)
        scenarioSource scenarioTarget scenarioPairs = some M ∧ M 3 = ![0, 0, 0, 1]) ∧
    (∃ M : Matrix4d ℚ,
      TransformationEstimationPointToPlane.mk.ComputeTransformation id id id zeroOnFailure
        scenarioSource scenarioTarget scenarioPairs = some M ∧ M 3 = ![0, 0, 0, 1])) :=
  ⟨by simp [InRange, scenarioSource, scenarioTarget, scenarioPairs],
    bottom_row_fixed (TransformationEstimationPointToPoint.mk true)
      TransformationEstimationPointToPlane.mk (scenarioSVD 0) id id id zeroOnFailure
      (scenarioSource : PointCloud ℚ) scenarioTarget scenarioPairs
      (by simp [InRange, scenarioSource, scenarioTarget, scenarioPairs])⟩

/-- After a failed factorisation the twist is the negated unspecified outcome
of the solve. -/
theorem solvedTwist_of_issue (sqrt : K → K)
    (unspecified : Matrix6d K → Vector6d K → Vector6d K) (source target : PointCloud K)
    (corres : CorrespondenceSet)
    (h : (llt sqrt (normalMatrix source target corres)).info =
      ComputationInfo.NumericalIssue) :
    solvedTwist sqrt unspecified source target corres =
      -unspecified (llt sqrt (normalMatrix source target corres)).matrixL
        (normalVector source target corres) := by
  simp only [solvedTwist, solveTwist, LLT.solve, h]

/-- On a degenerate input with the zero vector as outcome of the failed solve
the result is the identity matrix. -/
theorem degenerate_zeroOnFailure (self : TransformationEstimationPointToPlane)
    (source target : PointCloud ℝ) (corres : CorrespondenceSet) (hne : corres ≠ [])
    (hn : target.HasNormals = true) (hin : InRange source target corres)
    (hdeg : corres.length < 6 ∨
      ∃ d : Vector3d ℝ, ∀ c ∈ corres, ∃ k : ℝ, target.normalAt c.2 = k • d) :
    (llt Real.sqrt (normalMatrix source target corres)).info =
      ComputationInfo.NumericalIssue ∧
    self.ComputeTransformation Real.sqrt Real.cos Real.sin zeroOnFailure source target corres =
      some 1 := by
  have hinfo := llt_info_of_singular Real.sqrt isSqrt_real _
    (normalMatrix_symm source target corres)
    (normalMatrix_singular_of_degenerate source target corres hdeg)
  refine ⟨hinfo, ?_⟩
  rw [pointToPlane_transformation_eq self _ _ _ _ source target corres hne hn hin,
    solvedTwist_of_issue _ _ _ _ _ hinfo]
  simp only [zeroOnFailure, neg_zero, twistToMatrix_zero]

/-- C11 as stated fails: on a single in-range correspondence to a target with
normals the matrix `ATA` is singular and the factorisation reports a
numerical issue, yet point-to-plane ComputeTransformation returns a matrix. -/
theorem single_correspondence_returns_matrix :
    (scenarioTarget : PointCloud ℝ).HasNormals = true ∧
    InRange (scenarioSource : PointCloud ℝ) scenarioTarget [(0, 0)] ∧
    (∃ x : Vector6d ℝ, x ≠ 0 ∧
      normalMatrix (scenarioSource : PointCloud ℝ) scenarioTarget [(0, 0)] *ᵥ x = 0) ∧
    (llt Real.sqrt (normalMatrix (scenarioSource : PointCloud ℝ) scenarioTarget
      [(0, 0)])).info = ComputationInfo.NumericalIssue ∧
    ∃ M : Matrix4d ℝ,
      TransformationEstimationPointToPlane.mk.ComputeTransformation Real.sqrt Real.cos Real.sin
        zeroOnFailure (scenarioSource : PointCloud ℝ) scenarioTarget [(0, 0)] = some M := by
  have hn : (scenarioTarget : PointCloud ℝ).HasNormals = true := by
    simp [PointCloud.HasNormals, scenarioTarget]
  have hin : InRange (scenarioSource : PointCloud ℝ) scenarioTarget [(0, 0)] := by
    simp [InRange, scenarioSource, scenarioTarget]
  have hdeg : ([(0, 0)] : CorrespondenceSet).length < 6 ∨
      ∃ d : Vector3d ℝ, ∀ c ∈ ([(0, 0)] : CorrespondenceSet), ∃ k : ℝ,
        (scenarioTarget : PointCloud ℝ).normalAt c.2 = k • d := Or.inl (by decide)
  have h := degenerate_zeroOnFailure TransformationEstimationPointToPlane.mk
    (scenarioSource : PointCloud ℝ) scenarioTarget [(0, 0)] (by simp) hn hin hdeg
  exact ⟨hn, hin, normalMatrix_singular_of_degenerate _ _ _ hdeg, h.1, 1, h.2⟩

/-- C11 amended: for a target with normals and a non-empty correspondence
list in range, point-to-plane ComputeTransformation always returns the matrix
built from the twist `x = -solve(ATb)`; the status of the factorisation is not
consulted and no error is signalled.  When the factorisation has failed the
twist is the negated unspecified outcome of the solve. -/
theorem factorisation_status_ignored (self : TransformationEstimationPointToPlane)
    (sqrt cos sin : K → K) (unspecified : Matrix6d K → Vector6d K → Vector6d K)
    (source target : PointCloud K) (corres : CorrespondenceSet)
    (hne : corres ≠ []) (hn : target.HasNormals = true) (hin : InRange source target corres) :
    self.ComputeTransformation sqrt cos sin unspecified source target corres =
      some (twistToMatrix cos sin (solvedTwist sqrt unspecified source target corres)) ∧
    ((llt sqrt (normalMatrix source target corres)).info = ComputationInfo.NumericalIssue →
      solvedTwist sqrt unspecified source target corres =
        -unspecified (llt sqrt (normalMatrix source target corres)).matrixL
          (normalVector source target corres)) :=
  ⟨pointToPlane_transformation_eq self sqrt cos sin unspecified source target corres hne hn hin,
    solvedTwist_of_issue sqrt unspecified source target corres⟩

/-- The amended statement of C11 applied to a single correspondence. -/
theorem factorisation_status_ignored_witness :
    ([(0, 0)] : CorrespondenceSet) ≠ [] ∧
    (scenarioTarget : PointCloud ℝ).HasNormals = true ∧
    InRange (scenarioSource : PointCloud ℝ) scenarioTarget [(0, 0)] ∧
    (TransformationEstimationPointToPlane.mk.ComputeTransformation Real.sqrt Real.cos Real.sin
        zeroOnFailure (scenarioSource : PointCloud ℝ) scenarioTarget [(0, 0)] =
      some (twistToMatrix Real.cos Real.sin
        (solvedTwist Real.sqrt zeroOnFailure scenarioSource scenarioTarget [(0, 0)])) ∧
    ((llt Real.sqrt (normalMatrix (scenarioSource : PointCloud ℝ) scenarioTarget
        [(0, 0)])).info = ComputationInfo.NumericalIssue →
      solvedTwist Real.sqrt zeroOnFailure (scenarioSource : PointCloud ℝ) scenarioTarget
          [(0, 0)] =
        -zeroOnFailure (llt Real.sqrt (normalMatrix (scenarioSource : PointCloud ℝ)
          scenarioTarget [(0, 0)])).matrixL
          (normalVector (scenarioSource : PointCloud ℝ) scenarioTarget [(0, 0)]))) :=
  ⟨by simp, by simp [PointCloud.HasNormals, scenarioTarget],
    by simp [InRange, scenarioSource, scenarioTarget],
    factorisation_status_ignored TransformationEstimationPointToPlane.mk Real.sqrt Real.cos
      Real.sin zeroOnFailure (scenarioSource : PointCloud ℝ) scenarioTarget [(0, 0)] (by simp)
      (by simp [PointCloud.HasNormals, scenarioTarget])
      (by simp [InRange, scenarioSource, scenarioTarget])⟩

theorem normalMatrix_mulVec (source target : PointCloud K) (corres : CorrespondenceSet)
    (x : Vector6d K) :
    normalMatrix source target corres *ᵥ x =
      (corres.map (fun c => (rowOf source target c ⬝ᵥ x) • rowOf source target c)).sum := by
  induction corres with
  | nil => simp [normalMatrix]
  | cons c cs ih =>
    rw [normalMatrix_cons, Matrix.add_mulVec, vecMulVec_self_mulVec, ih]
    simp

theorem dotProduct_six (a x : Vector6d K) : a ⬝ᵥ x =
    a 0 * x 0 + a 1 * x 1 + a 2 * x 2 + a 3 * x 3 + a 4 * x 4 + a 5 * x 5 := by
  simp only [Matrix.dotProduct, Fin.sum_univ_six]

theorem vector6d_ext (a b : Vector6d K) (h0 : a 0 = b 0) (h1 : a 1 = b 1) (h2 : a 2 = b 2)
    (h3 : a 3 = b 3) (h4 : a 4 = b 4) (h5 : a 5 = b 5) : a = b := by
  funext i
  fin_cases i <;> assumption

theorem vector6d_apply (a b c d e f : K) :
    (![a, b, c, d, e, f] : Vector6d K) 0 = a ∧ (![a, b, c, d, e, f] : Vector6d K) 1 = b ∧
    (![a, b, c, d, e, f] : Vector6d K) 2 = c ∧ (![a, b, c, d, e, f] : Vector6d K) 3 = d ∧
    (![a, b, c, d, e, f] : Vector6d K) 4 = e ∧ (![a, b, c, d, e, f] : Vector6d K) 5 = f :=
  ⟨rfl, rfl, rfl, rfl, rfl, rfl⟩

theorem scenario_rowOf_zero :
    rowOf (scenarioSource : PointCloud K) scenarioTarget (0, 0) = ![0, 0, 0, 0, 0, 1] := by
  funext i
  fin_cases i <;>
    simp [rowOf, stackedRow, PointCloud.pointAt, PointCloud.normalAt, scenarioSource,
      scenarioTarget, cross_apply]

theorem scenario_rowOf_one :
    rowOf (scenarioSource : PointCloud K) scenarioTarget (1, 1) = ![0, -1, 0, 0, 0, 1] := by
  funext i
  fin_cases i <;>
    simp [rowOf, stackedRow, PointCloud.pointAt, PointCloud.normalAt, scenarioSource,
      scenarioTarget, cross_apply]

theorem scenario_rowOf_two :
    rowOf (scenarioSource : PointCloud K) scenarioTarget (2, 2) = ![1, 0, 0, 0, 0, 1] := by
  funext i
  fin_cases i <;>
    simp [rowOf, stackedRow, PointCloud.pointAt, PointCloud.normalAt, scenarioSource,
      scenarioTarget, cross_apply]

theorem scenario_residualOf (c : ℕ × ℕ) (hc : c ∈ scenarioPairs) :
    residualOf (scenarioSource : PointCloud K) scenarioTarget c = -3 := by
  simp only [scenarioPairs, List.mem_cons, List.mem_singleton, List.not_mem_nil, or_false] at hc
  rcases hc with rfl | rfl | rfl <;>
    simp [residualOf, residual, PointCloud.pointAt, PointCloud.normalAt, scenarioSource,
      scenarioTarget, Matrix.dotProduct, Fin.sum_univ_succ]

theorem scenario_normalVector :
    normalVector (scenarioSource : PointCloud K) scenarioTarget scenarioPairs =
      ![-3, 3, 0, 0, 0, -9] := by
  simp only [normalVector, scenarioPairs, List.map_cons, List.map_nil, List.sum_cons,
    List.sum_nil, scenario_rowOf_zero, scenario_rowOf_one, scenario_rowOf_two]
  rw [scenario_residualOf (0, 0) (by simp [scenarioPairs]),
    scenario_residualOf (1, 1) (by simp [scenarioPairs]),
    scenario_residualOf (2, 2) (by simp [scenarioPairs])]
  apply vector6d_ext <;>
    simp only [Pi.add_apply, Pi.smul_apply, Pi.zero_apply, smul_eq_mul,
      (vector6d_apply _ _ _ _ _ _).1, (vector6d_apply _ _ _ _ _ _).2.1,
      (vector6d_apply _ _ _ _ _ _).2.2.1, (vector6d_apply _ _ _ _ _ _).2.2.2.1,
      (vector6d_apply _ _ _ _ _ _).2.2.2.2.1, (vector6d_apply _ _ _ _ _ _).2.2.2.2.2] <;>
    ring

theorem scenario_normalMatrix_mulVec (x : Vector6d K) :
    normalMatrix (scenarioSource : PointCloud K) scenarioTarget scenarioPairs *ᵥ x =
      ![x 0 + x 5, x 1 - x 5, 0, 0, 0, x 0 - x 1 + 3 * x 5] := by
  rw [normalMatrix_mulVec]
  simp only [scenarioPairs, List.map_cons, List.map_nil, List.sum_cons,
    List.sum_nil, scenario_rowOf_zero, scenario_rowOf_one, scenario_rowOf_two]
  apply vector6d_ext <;>
    simp only [dotProduct_six, Pi.add_apply, Pi.smul_apply, Pi.zero_apply, smul_eq_mul,
      (vector6d_apply _ _ _ _ _ _).1, (vector6d_apply _ _ _ _ _ _).2.1,
      (vector6d_apply _ _ _ _ _ _).2.2.1, (vector6d_apply _ _ _ _ _ _).2.2.2.1,
      (vector6d_apply _ _ _ _ _ _).2.2.2.2.1, (vector6d_apply _ _ _ _ _ _).2.2.2.2.2] <;>
    ring

theorem scenario_hasNormals : (scenarioTarget : PointCloud K).HasNormals = true := by
  simp [PointCloud.HasNormals, scenarioTarget]

theorem scenario_inRange :
    InRange (scenarioSource : PointCloud K) scenarioTarget scenarioPairs := by
  simp [InRange, scenarioSource, scenarioTarget, scenarioPairs]

theorem rotX_real_zero : rotX Real.cos Real.sin 0 = 1 := by
  ext i j
  fin_cases i <;> fin_cases j <;> simp [rotX, Matrix.one_apply] <;> rfl

theorem rotY_real_zero : rotY Real.cos Real.sin 0 = 1 := by
  ext i j
  fin_cases i <;> fin_cases j <;> simp [rotY, Matrix.one_apply] <;> rfl

theorem rotZ_real_zero : rotZ Real.cos Real.sin 0 = 1 := by
  ext i j
  fin_cases i <;> fin_cases j <;> simp [rotZ, Matrix.one_apply] <;> rfl

/-- C12 as stated fails: on the scenario of the specification the
factorisation of `ATA` reports a numerical issue, and with the zero vector as
outcome of the failed solve the returned matrix is the identity, whose
translation is not (0,0,3). -/
theorem scenario_translation_not_recovered :
    (llt Real.sqrt (normalMatrix (scenarioSource : PointCloud ℝ) scenarioTarget
      scenarioPairs)).info = ComputationInfo.NumericalIssue ∧
    TransformationEstimationPointToPlane.mk.ComputeTransformation Real.sqrt Real.cos Real.sin
      zeroOnFailure (scenarioSource : PointCloud ℝ) scenarioTarget scenarioPairs = some 1 ∧
    translationBlock (1 : Matrix4d ℝ) ≠ ![0, 0, 3] := by
  have h := degenerate_zeroOnFailure TransformationEstimationPointToPlane.mk
    (scenarioSource : PointCloud ℝ) scenarioTarget scenarioPairs (by simp [scenarioPairs])
    scenario_hasNormals scenario_inRange (Or.inl (by decide))
  refine ⟨h.1, h.2, fun heq => ?_⟩
  have h2 : (1 : Matrix4d ℝ) (Fin.castSucc 2) 3 = 3 := congrFun heq 2
  rw [Matrix.one_apply_ne (by decide)] at h2
  norm_num at h2

/-- C12 amended: on the scenario of the specification `ATA` is singular, the
factorisation reports a numerical issue and the returned matrix is built from
the unspecified outcome of the failed solve.  The normal equations
`ATA x = -ATb` are solved by `x = (0,0,0,0,0,3)`, every solution has
`x0 = x1 = 0` and `x5 = 3`, and the matrix built from `(0,0,0,0,0,3)` has the
identity as rotation block and translation (0,0,3). -/
theorem scenario_normal_equations (unspecified : Matrix6d ℝ → Vector6d ℝ → Vector6d ℝ) :
    (llt Real.sqrt (normalMatrix (scenarioSource : PointCloud ℝ) scenarioTarget
      scenarioPairs)).info = ComputationInfo.NumericalIssue ∧
    TransformationEstimationPointToPlane.mk.ComputeTransformation Real.sqrt Real.cos Real.sin
        unspecified (scenarioSource : PointCloud ℝ) scenarioTarget scenarioPairs =
      some (twistToMatrix Real.cos Real.sin
        (-unspecified (llt Real.sqrt (normalMatrix (scenarioSource : PointCloud ℝ)
          scenarioTarget scenarioPairs)).matrixL ![-3, 3, 0, 0, 0, -9])) ∧
    (normalMatrix (scenarioSource : PointCloud ℝ) scenarioTarget scenarioPairs *ᵥ
        ![0, 0, 0, 0, 0, 3] =
      -normalVector (scenarioSource : PointCloud ℝ) scenarioTarget scenarioPairs) ∧
    (∀ x : Vector6d ℝ,
      normalMatrix (scenarioSource : PointCloud ℝ) scenarioTarget scenarioPairs *ᵥ x =
        -normalVector (scenarioSource : PointCloud ℝ) scenarioTarget scenarioPairs →
      x 0 = 0 ∧ x 1 = 0 ∧ x 5 = 3) ∧
    rotationBlock (twistToMatrix Real.cos Real.sin ![0, 0, 0, 0, 0, 3]) = 1 ∧
    translationBlock (twistToMatrix Real.cos Real.sin ![0, 0, 0, 0, 0, 3]) = ![0, 0, 3] ∧
    (∃ x : Vector6d ℝ, x ≠ 0 ∧
      normalMatrix (scenarioSource : PointCloud ℝ) scenarioTarget scenarioPairs *ᵥ x = 0) := by
  have hsing := normalMatrix_singular_of_degenerate (scenarioSource : PointCloud ℝ)
    scenarioTarget scenarioPairs (Or.inl (by decide))
  have hinfo := llt_info_of_singular Real.sqrt isSqrt_real _
    (normalMatrix_symm (scenarioSource : PointCloud ℝ) scenarioTarget scenarioPairs) hsing
  refine ⟨hinfo, ?_, ?_, ?_, ?_, ?_, hsing⟩
  · rw [pointToPlane_transformation_eq _ _ _ _ _ _ _ _ (by simp [scenarioPairs])
      scenario_hasNormals scenario_inRange, solvedTwist_of_issue _ _ _ _ _ hinfo,
      scenario_normalVector]
  · rw [scenario_normalMatrix_mulVec, scenario_normalVector]
    apply vector6d_ext <;>
      simp only [Pi.neg_apply,
        (vector6d_apply _ _ _ _ _ _).1, (vector6d_apply _ _ _ _ _ _).2.1,
        (vector6d_apply _ _ _ _ _ _).2.2.1, (vector6d_apply _ _ _ _ _ _).2.2.2.1,
        (vector6d_apply _ _ _ _ _ _).2.2.2.2.1, (vector6d_apply _ _ _ _ _ _).2.2.2.2.2] <;>
      norm_num
  · intro x hx
    rw [scenario_normalMatrix_mulVec, scenario_normalVector] at hx
    have h0 := congrFun hx 0
    have h1 := congrFun hx 1
    have h5 := congrFun hx 5
    simp only [Pi.neg_apply,
        (vector6d_apply _ _ _ _ _ _).1, (vector6d_apply _ _ _ _ _ _).2.1,
        (vector6d_apply _ _ _ _ _ _).2.2.2.2.2] at h0 h1 h5
    refine ⟨?_, ?_, ?_⟩ <;> linarith
  · rw [twistToMatrix, rotationBlock_fromBlocks34, toRotationMatrix_UnitX,
      toRotationMatrix_UnitY, toRotationMatrix_UnitZ]
    simp only [(vector6d_apply _ _ _ _ _ _).1, (vector6d_apply _ _ _ _ _ _).2.1,
      (vector6d_apply _ _ _ _ _ _).2.2.1, rotX_real_zero, rotY_real_zero, rotZ_real_zero,
      mul_one]
  · rw [twistToMatrix, translationBlock_fromBlocks34]
    rfl

/-- The amended statement of C12 applied to the solution (0,0,0,0,0,3). -/
theorem scenario_normal_equations_witness :
    normalMatrix (scenarioSource : PointCloud ℝ) scenarioTarget scenarioPairs *ᵥ
        ![0, 0, 0, 0, 0, 3] =
      -normalVector (scenarioSource : PointCloud ℝ) scenarioTarget scenarioPairs ∧
    ((![0, 0, 0, 0, 0, 3] : Vector6d ℝ) 0 = 0 ∧ (![0, 0, 0, 0, 0, 3] : Vector6d ℝ) 1 = 0 ∧
      (![0, 0, 0, 0, 0, 3] : Vector6d ℝ) 5 = 3) :=
  ⟨(scenario_normal_equations zeroOnFailure).2.2.1,
    (scenario_normal_equations zeroOnFailure).2.2.2.1 ![0, 0, 0, 0, 0, 3]
      (scenario_normal_equations zeroOnFailure).2.2.1⟩

end three
